import Mathlib

/-!
Verification of the asset reconciliation engine
(`asset_reconciliation_sensor.py`): a shallow embedding of the cursor,
the staleness detectors, the freshness-interval arithmetic, the graph
closure and the run-request batcher, together with theorems checking the
natural-language specification against this embedding.

Times and durations are integers counting microseconds (the resolution
of Python's `datetime`/`timedelta`, whose values are whole numbers of
microseconds); storage ids are integers; asset keys are opaque strings
(Modelled from the spec: an AssetKey is a globally unique name whose
user-string encoding is lossless, so the key and its user string are
identified).
-/

deriving instance DecidableEq for Except

namespace AssetRecon

abbrev AssetKey := String

abbrev Time := ℤ

/-- Pair of an asset key and an optional partition identifier. -/
structure AssetKeyPartitionKey where
  asset_key : AssetKey
  partition_key : Option String
deriving DecidableEq, Repr

/-- Half-open time window; the source field `end` is called `stop` here
because `end` is a Lean keyword. -/
structure TimeWindow where
  start : Time
  stop : Time
deriving DecidableEq, Repr

/-- One day, in microseconds (`datetime.timedelta(days=1)`). -/
def oneDay : Time := 86400000000

/-- `datetime.timedelta.resolution`: one microsecond. -/
def resolution : Time := 1

/-- Modelled from the spec: a time-window partitions definition
(`TimeWindowPartitionsDefinition`) with equally sized consecutive
windows; partition `i` (named by its decimal index) covers
`[origin + i*period, origin + (i+1)*period)`.  A partition exists once
its window has fully elapsed. -/
structure TimeWindowPartitionsDef where
  origin : Time
  period : Time
deriving DecidableEq, Repr

def TimeWindowPartitionsDef.window (tw : TimeWindowPartitionsDef) (i : ℕ) : TimeWindow :=
  ⟨tw.origin + i * tw.period, tw.origin + (i + 1) * tw.period⟩

/-- Modelled from the spec: number of complete windows before `t`
(so the partitions that exist at evaluation time `t`). -/
def TimeWindowPartitionsDef.numPartitions (tw : TimeWindowPartitionsDef) (t : Time) : ℕ :=
  ((t - tw.origin) / tw.period).toNat

/-- Modelled from the spec: `get_last_partition_window`, the window of the
newest existing partition, or none if no partition's window has elapsed. -/
def TimeWindowPartitionsDef.get_last_partition_window
    (tw : TimeWindowPartitionsDef) (t : Time) : Option TimeWindow :=
  let n := tw.numPartitions t
  if n = 0 then none else some (tw.window (n - 1))

/-- Modelled from the spec: `get_first_partition_window`. -/
def TimeWindowPartitionsDef.get_first_partition_window
    (tw : TimeWindowPartitionsDef) (t : Time) : Option TimeWindow :=
  if tw.numPartitions t = 0 then none else some (tw.window 0)

/-- Decimal value of a partition-key string (the keys of the modelled
time-window definitions are decimal indices). -/
def keyIndex (s : String) : ℕ :=
  s.data.foldl (fun n c => n * 10 + (c.toNat - 48)) 0

/-- Modelled from the spec: `time_window_for_partition_key`; partition
keys of this modelled definition are decimal indices. -/
def TimeWindowPartitionsDef.time_window_for_partition_key
    (tw : TimeWindowPartitionsDef) (pk : String) : TimeWindow :=
  tw.window (keyIndex pk)

/-- Modelled from the spec: `get_partition_keys_in_time_window` lists the
keys of the partitions whose windows lie inside `w`. -/
def TimeWindowPartitionsDef.get_partition_keys_in_time_window
    (tw : TimeWindowPartitionsDef) (w : TimeWindow) (t : Time) : List String :=
  (List.range (tw.numPartitions t)).filterMap fun i =>
    if w.start ≤ (tw.window i).start ∧ (tw.window i).stop ≤ w.stop then
      some (toString i)
    else none

/-- Modelled from the spec (design note §9): partition definitions as a
tagged variant; static definitions enumerate their keys. -/
inductive PartitionsDef
  | timeWindow (tw : TimeWindowPartitionsDef)
  | static (keys : List String)
deriving DecidableEq, Repr

/-- A partitions subset is modelled as the list of contained keys. -/
abbrev PartitionsSubset := List String

/-- One materialization record of the record store. -/
structure MatRecord where
  asset_key : AssetKey
  partition_key : Option String
  run_id : String
  storage_id : ℤ
deriving DecidableEq, Repr

/-- The record-store filter `storage_id > after_cursor` (no filter when
`after_cursor` is absent). -/
def afterFilter (after : Option ℤ) (i : ℤ) : Bool :=
  match after with
  | none => true
  | some a => decide (a < i)

/-- Keep the record with the larger storage id. -/
def laterRecord (acc : Option MatRecord) (r : MatRecord) : Option MatRecord :=
  match acc with
  | none => some r
  | some m => if m.storage_id < r.storage_id then some r else some m

/-- Latest materialization record of an asset (any partition) with
storage id above `after`: `get_latest_materialization_record(asset_key,
after_cursor)` against the modelled record store. -/
def latestRecordAsset (store : List MatRecord) (k : AssetKey) (after : Option ℤ) :
    Option MatRecord :=
  (store.filter fun r => decide (r.asset_key = k) && afterFilter after r.storage_id).foldl
    laterRecord none

/-- Latest materialization record of one asset partition:
`get_latest_materialization_record(AssetKeyPartitionKey(k, pk), after)`. -/
def latestRecordAP (store : List MatRecord) (ap : AssetKeyPartitionKey) (after : Option ℤ) :
    Option MatRecord :=
  (store.filter fun r =>
      decide (r.asset_key = ap.asset_key) && decide (r.partition_key = ap.partition_key)
        && afterFilter after r.storage_id).foldl
    laterRecord none

/-- `get_materialized_partitions(asset_key, after_cursor)`: partition keys
with a materialization whose storage id is above `after`. -/
def materializedPartitionsSince (store : List MatRecord) (k : AssetKey) (after : Option ℤ) :
    List String :=
  ((store.filter fun r => decide (r.asset_key = k) && afterFilter after r.storage_id).filterMap
    (fun r => r.partition_key)).dedup

/-- A `pendulum.Period`: an interval of times. -/
structure Period where
  start : Time
  stop : Time
deriving DecidableEq, Repr

/-- A freshness policy: a maximum lag, optionally paired with a cron
schedule.  The cron schedule is Modelled from the spec: the external
`cron_string_iterator(start_timestamp, ...)` yields the cron ticks at or
after the start timestamp in increasing order; it is represented by the
function from the start timestamp to (a finite prefix of) that tick
stream. -/
structure FreshnessPolicy where
  maximum_lag_delta : Time
  cron_schedule : Option (Time → List Time)

/-- `0.9 * maximum_lag_delta`: a `timedelta` scaled by a float rounds to
whole microseconds; for every lag appearing in the theorems below the
product is a whole number of microseconds, so truncating division is
exact. -/
def ninetyPercent (lag : Time) : Time := 9 * lag / 10

/-- Walk of the cron tick stream in `get_execution_period_for_policy`:
return `[tick - lag, tick)` for the first tick whose required data time
is not yet satisfied.  The source loop runs over an infinite iterator
and always finds such a tick; exhausting the modelled finite prefix
yields `none` (a model artifact, never hit in the theorems below). -/
def firstUnsatisfiedTick (lag : Time) (effective_data_time : Time) :
    List Time → Option Period
  | [] => none
  | tick :: ts =>
    if effective_data_time < tick - lag then some ⟨tick - lag, tick⟩
    else firstUnsatisfiedTick lag effective_data_time ts

/-- `get_execution_period_for_policy`. -/
def get_execution_period_for_policy (freshness_policy : FreshnessPolicy)
    (effective_data_time : Option Time) (evaluation_time : Time) : Option Period :=
  match effective_data_time with
  | none => some ⟨evaluation_time, evaluation_time⟩
  | some effective_data_time =>
    match freshness_policy.cron_schedule with
    | some iter =>
      firstUnsatisfiedTick freshness_policy.maximum_lag_delta effective_data_time
        (iter evaluation_time)
    | none =>
      some ⟨effective_data_time + ninetyPercent freshness_policy.maximum_lag_delta,
        max (effective_data_time + freshness_policy.maximum_lag_delta) evaluation_time⟩

/-- The merge loop of `get_execution_period_for_policies` over the
periods already sorted by end: merge a period whose start is at or
before the accumulator's end, otherwise stop. -/
def mergeSortedPeriods : Option Period → List Period → Option Period
  | acc, [] => acc
  | none, p :: ps => mergeSortedPeriods (some p) ps
  | some m, p :: ps =>
    if p.start ≤ m.stop then mergeSortedPeriods (some ⟨max p.start m.start, p.stop⟩) ps
    else some m

/-- Stable insertion into a list sorted by period end ascending. -/
def insertByEnd (p : Period) : List Period → List Period
  | [] => [p]
  | q :: qs => if p.stop < q.stop then p :: q :: qs else q :: insertByEnd p qs

/-- Stable sort by period end ascending (`sorted(..., key=end)`). -/
def sortByEnd (ps : List Period) : List Period :=
  ps.foldl (fun acc p => insertByEnd p acc) []

/-- `get_execution_period_for_policies`: one period per policy, sorted by
period end ascending, then greedily merged.  (The per-policy period is
never absent in the source, since the cron iterator is infinite; absent
model artifacts are dropped.) -/
def get_execution_period_for_policies (policies : List FreshnessPolicy)
    (effective_data_time : Option Time) (evaluation_time : Time) : Option Period :=
  mergeSortedPeriods none
    (sortByEnd
      (policies.filterMap fun policy =>
        get_execution_period_for_policy policy effective_data_time evaluation_time))

/-- A run request.  Modelled from the spec (§6): a dispatch request
carries its target assets, the group's optional partition key and tags. -/
structure RunRequest where
  asset_selection : List AssetKey
  partition_key : Option String
  tags : List (String × String)
deriving DecidableEq, Repr

/-- Backfill lifecycle states (`BulkActionStatus`). -/
inductive BulkActionStatus
  | REQUESTED
  | COMPLETED
  | CANCELED
  | FAILED
  | CANCELING
deriving DecidableEq, Repr

/-- A backfill record as read by the engine.  Modelled from the spec
(§3): status, whether it is an asset backfill, and the serialized target
selection (`AssetBackfillData.from_serialized` is modelled as returning
the stored target subset, an asset-graph subset listed by its units). -/
structure Backfill where
  status : BulkActionStatus
  is_asset_backfill : Bool
  serialized_asset_backfill_data : Option (List AssetKeyPartitionKey)
deriving DecidableEq, Repr

/-- JSON values, for the opaque cursor encoding.  `json.dumps` /
`json.loads` of the source are modelled as the identity on this
representation (the spec requires only a lossless opaque string
encoding). -/
inductive Json
  | null
  | num (n : ℤ)
  | str (s : String)
  | arr (xs : List Json)
  | obj (fields : List (String × Json))

/-- `AssetReconciliationCursor`.  Sets and mappings are modelled as
lists; `materialized_or_requested_root_partitions_by_asset_key` is an
association list from asset key to partitions subset. -/
structure AssetReconciliationCursor where
  latest_storage_id : Option ℤ
  materialized_or_requested_root_asset_keys : List AssetKey
  materialized_or_requested_root_partitions_by_asset_key :
    List (AssetKey × PartitionsSubset)
deriving DecidableEq, Repr

/-- Lookup in an association list (first match). -/
def lookupKey {α : Type} : List (AssetKey × α) → AssetKey → Option α
  | [], _ => none
  | (k, v) :: rest, key => if k = key then some v else lookupKey rest key

/-- Insert-or-replace in an association list. -/
def setKey {α : Type} (m : List (AssetKey × α)) (key : AssetKey) (v : α) :
    List (AssetKey × α) :=
  (key, v) :: m.filter fun p => decide (p.1 ≠ key)

def AssetReconciliationCursor.empty : AssetReconciliationCursor :=
  ⟨none, [], []⟩

def AssetReconciliationCursor.was_previously_materialized_or_requested
    (c : AssetReconciliationCursor) (asset_key : AssetKey) : Bool :=
  decide (asset_key ∈ c.materialized_or_requested_root_asset_keys)

/-- Python truthiness of an optional integer (`None` and `0` are falsy). -/
def truthyId : Option ℤ → Bool
  | none => false
  | some n => decide (n ≠ 0)

/-- Python `x or y` on optional integers. -/
def orId (x y : Option ℤ) : Option ℤ :=
  if truthyId x then x else y

/-- `allowable_time_window_for_partitions_def`. -/
def allowable_time_window_for_partitions_def (partitions_def : TimeWindowPartitionsDef)
    (evaluation_time : Time) : Option TimeWindow :=
  match partitions_def.get_last_partition_window evaluation_time with
  | none => none
  | some latest_partition_window =>
    match partitions_def.get_first_partition_window evaluation_time with
    | none => none
    | some earliest_partition_window =>
      some
        ⟨max earliest_partition_window.start
            (latest_partition_window.start - oneDay + resolution),
          latest_partition_window.stop⟩

/-- The read-only environment of one evaluation tick: the record store,
the dependency-graph query interface, the resolved target selection, the
backfill store, the data-time resolver and the evaluation time.  All of
these are external collaborators of the engine (spec §2, §6), modelled
as explicit functions; the engine itself never mutates them. -/
structure ReconEnv where
  store : List MatRecord
  is_asset_planned_for_run : String → AssetKeyPartitionKey → Bool
  is_reconciled : AssetKeyPartitionKey → Bool
  is_source : AssetKey → Bool
  children_partitions : AssetKey → Option String → List AssetKeyPartitionKey
  parents_partitions : AssetKeyPartitionKey → List AssetKeyPartitionKey
  children_of : AssetKeyPartitionKey → List AssetKeyPartitionKey
  groupOf : AssetKeyPartitionKey → List AssetKeyPartitionKey
  have_same_partitioning : AssetKey → AssetKey → Bool
  has_non_source_parents : AssetKey → Bool
  get_partitions_def : AssetKey → Option PartitionsDef
  target_asset_keys : List AssetKey
  target_parent_asset_keys : List AssetKey
  target_root_asset_keys : List AssetKey
  backfills : List Backfill
  toposort_levels : List (List AssetKey)
  get_parents : AssetKey → List AssetKey
  downstream_freshness_policies : AssetKey → List FreshnessPolicy
  required_multi_asset_keys : AssetKey → List AssetKey
  current_data_time : AssetKey → Option Time
  in_progress_data_time : AssetKey → Option Time
  failed_data_time : AssetKey → Option Time
  run_tags : List (String × String)
  evaluation_time : Time

/-- `asset_graph.is_partitioned`: an asset is partitioned iff it has a
partitions definition. -/
def ReconEnv.is_partitioned (env : ReconEnv) (k : AssetKey) : Bool :=
  (env.get_partitions_def k).isSome

/-- Python truthiness of an optional string (`None` and `""` are falsy). -/
def truthyStr : Option String → Bool
  | none => false
  | some s => decide (s ≠ "")

/-- `candidates_unit_within_allowable_time_window`. -/
def candidates_unit_within_allowable_time_window (env : ReconEnv)
    (candidates_unit : List AssetKeyPartitionKey) : Bool :=
  match candidates_unit.head? with
  | none => true
  | some representative_candidate =>
    match env.get_partitions_def representative_candidate.asset_key,
        representative_candidate.partition_key with
    | some (.timeWindow partitions_def), some partition_key =>
      if partition_key = "" then true
      else
        match allowable_time_window_for_partitions_def partitions_def env.evaluation_time with
        | none => false
        | some allowable_time_window =>
          let candidate_partition_window :=
            partitions_def.time_window_for_partition_key partition_key
          decide (candidate_partition_window.start ≥ allowable_time_window.start)
            && decide (candidate_partition_window.stop ≤ allowable_time_window.stop)
    | _, _ => true

/-- `AssetReconciliationCursor.get_never_requested_never_materialized_partitions`. -/
def AssetReconciliationCursor.get_never_requested_never_materialized_partitions
    (c : AssetReconciliationCursor) (env : ReconEnv) (asset_key : AssetKey) : List String :=
  match env.get_partitions_def asset_key with
  | none => []
  | some partitions_def =>
    let materialized_or_requested_subset :=
      (lookupKey c.materialized_or_requested_root_partitions_by_asset_key asset_key).getD []
    match partitions_def with
    | .timeWindow tw =>
      match allowable_time_window_for_partitions_def tw env.evaluation_time with
      | none => []
      | some allowable_time_window =>
        (tw.get_partition_keys_in_time_window allowable_time_window
            env.evaluation_time).filter
          fun partition_key => decide (partition_key ∉ materialized_or_requested_subset)
    | .static keys =>
      keys.filter fun partition_key => decide (partition_key ∉ materialized_or_requested_subset)

/-- One asset key of one run request, classified into the requested
root partitions / requested unpartitioned roots accumulator. -/
def requestedStep (env : ReconEnv) (partition_key : Option String)
    (acc : List (AssetKey × List String) × List AssetKey) (asset_key : AssetKey) :
    List (AssetKey × List String) × List AssetKey :=
  if env.has_non_source_parents asset_key then acc
  else if truthyStr partition_key then
    (setKey acc.1 asset_key
        ((lookupKey acc.1 asset_key).getD [] ++ [partition_key.getD ""]),
      acc.2)
  else (acc.1, acc.2 ++ [asset_key])

/-- The requested-roots loop of `with_updates` over all run requests. -/
def requestedFold (env : ReconEnv) (run_requests : List RunRequest) :
    List (AssetKey × List String) × List AssetKey :=
  run_requests.foldl
    (fun acc run_request =>
      run_request.asset_selection.foldl (requestedStep env run_request.partition_key) acc)
    ([], [])

/-- The merge of newly materialized and requested root partitions into
the cursor's stored subsets. -/
def updatedRootPartitions (c : AssetReconciliationCursor)
    (newly : List (AssetKey × List String)) (requested : List (AssetKey × List String)) :
    List (AssetKey × PartitionsSubset) :=
  ((newly.map Prod.fst ++ requested.map Prod.fst).dedup).foldl
    (fun m asset_key =>
      setKey m asset_key
        ((lookupKey c.materialized_or_requested_root_partitions_by_asset_key
              asset_key).getD []
          ++ (lookupKey newly asset_key).getD []
          ++ (lookupKey requested asset_key).getD []))
    c.materialized_or_requested_root_partitions_by_asset_key

/-- `AssetReconciliationCursor.with_updates`.  The invariant violation
(`check.invariant`) is an `Except.error`; note the source guards the
check and the watermark update with Python truthiness (`latest and
prev`, `latest or prev`), under which a zero watermark behaves like an
absent one. -/
def AssetReconciliationCursor.with_updates (c : AssetReconciliationCursor) (env : ReconEnv)
    (latest_storage_id : Option ℤ) (run_requests : List RunRequest)
    (newly_materialized_root_asset_keys : List AssetKey)
    (newly_materialized_root_partitions_by_asset_key : List (AssetKey × List String)) :
    Except String AssetReconciliationCursor :=
  let requested := requestedFold env run_requests
  let result_materialized_or_requested_root_partitions_by_asset_key :=
    updatedRootPartitions c newly_materialized_root_partitions_by_asset_key requested.1
  let result_materialized_or_requested_root_asset_keys :=
    c.materialized_or_requested_root_asset_keys ++ newly_materialized_root_asset_keys
      ++ requested.2
  if truthyId latest_storage_id && truthyId c.latest_storage_id then
    if (latest_storage_id.getD 0) ≥ (c.latest_storage_id.getD 0) then
      .ok
        ⟨orId latest_storage_id c.latest_storage_id,
          result_materialized_or_requested_root_asset_keys,
          result_materialized_or_requested_root_partitions_by_asset_key⟩
    else .error "Latest storage ID should be >= previous latest storage ID"
  else
    .ok
      ⟨orId latest_storage_id c.latest_storage_id,
        result_materialized_or_requested_root_asset_keys,
        result_materialized_or_requested_root_partitions_by_asset_key⟩

/-- Map a partial function over a list, failing when any element fails. -/
def mapSome {α β : Type} (f : α → Option β) : List α → Option (List β)
  | [] => some []
  | a :: as =>
    match f a with
    | none => none
    | some b =>
      match mapSome f as with
      | none => none
      | some bs => some (b :: bs)

/-- `AssetReconciliationCursor.serialize`, producing the JSON triple. -/
def serializeSubset (s : PartitionsSubset) : Json := .arr (s.map .str)

/-- `PartitionsDefinition.deserialize_subset`; every modelled partitions
definition stores a subset as the JSON list of its keys. -/
def deserializeSubset (_pd : PartitionsDef) (j : Json) : Option PartitionsSubset :=
  match j with
  | .arr xs =>
    mapSome
      (fun x =>
        match x with
        | .str s => some s
        | _ => none)
      xs
  | _ => none

def AssetReconciliationCursor.serialize (c : AssetReconciliationCursor) : Json :=
  .arr
    [match c.latest_storage_id with
      | none => .null
      | some i => .num i,
      .arr (c.materialized_or_requested_root_asset_keys.map .str),
      .obj
        (c.materialized_or_requested_root_partitions_by_asset_key.map fun p =>
          (p.1, serializeSubset p.2))]

/-- `AssetReconciliationCursor.from_serialized`; a malformed encoding
(which raises in the source) is `none`. -/
def AssetReconciliationCursor.from_serialized (env : ReconEnv) (j : Json) :
    Option AssetReconciliationCursor :=
  match j with
  | .arr [wm, .arr keyJs, .obj partFields] => do
    let latest ←
      match wm with
      | .null => some (none : Option ℤ)
      | .num i => some (some i)
      | _ => none
    let keys ←
      mapSome
        (fun x =>
          match x with
          | .str s => some s
          | _ => none)
        keyJs
    let parts ←
      mapSome
        (fun (p : String × Json) => do
          let pd ← env.get_partitions_def p.1
          let sub ← deserializeSubset pd p.2
          pure (p.1, sub))
        partFields
    pure ⟨latest, keys, parts⟩
  | _ => none

/-- The sensor body's cursor handling: an absent cursor is interpreted
as the empty cursor, otherwise it is deserialized. -/
def cursor_from_context (env : ReconEnv) (ctx : Option Json) :
    Option AssetReconciliationCursor :=
  match ctx with
  | none => some .empty
  | some j => AssetReconciliationCursor.from_serialized env j

/-- Insertion into a set modelled as a duplicate-free list (`set.add`). -/
def insertAP (l : List AssetKeyPartitionKey) (u : AssetKeyPartitionKey) :
    List AssetKeyPartitionKey :=
  if u ∈ l then l else l ++ [u]

/-- Union of the target subsets of a list of asset backfills; a backfill
without serialized data is a `check.failed` (`Except.error`). -/
def backfillUnion : List Backfill → Except String (List AssetKeyPartitionKey)
  | [] => .ok []
  | b :: bs =>
    match b.serialized_asset_backfill_data with
    | none => .error "Asset backfill missing serialized asset backfill data"
    | some target_subset =>
      match backfillUnion bs with
      | .error e => .error e
      | .ok rest => .ok (target_subset ++ rest)

/-- `get_active_backfill_target_asset_graph_subset`. -/
def get_active_backfill_target_asset_graph_subset (env : ReconEnv) :
    Except String (List AssetKeyPartitionKey) :=
  backfillUnion
    (env.backfills.filter fun b => decide (b.status = .REQUESTED) && b.is_asset_backfill)

/-- The body of the per-partition child loop of
`find_parent_materialized_asset_partitions` (lines 299-317): the cheap
pre-checks, then either a direct insertion (differing partition key) or
the same-run exclusion check against the latest record of that parent
partition.  The `check.not_none` branch is unreachable (the partition
key came from a record of the same store above the same cursor) and adds
nothing. -/
def process_child_partitioned (env : ReconEnv)
    (can_reconcile_fn : AssetKeyPartitionKey → Bool) (asset_key : AssetKey)
    (partition_key : String) (after : Option ℤ) (child : AssetKeyPartitionKey)
    (result : List AssetKeyPartitionKey) : List AssetKeyPartitionKey :=
  if decide (child.asset_key ∉ env.target_asset_keys) then result
  else if !can_reconcile_fn child then result
  else if decide (some partition_key ≠ child.partition_key) then insertAP result child
  else
    match latestRecordAP env.store ⟨asset_key, some partition_key⟩ after with
    | some latest_partition_record =>
      if !env.is_asset_planned_for_run latest_partition_record.run_id child then
        insertAP result child
      else result
    | none => result

/-- One parent asset of the loop of
`find_parent_materialized_asset_partitions`. -/
def parentKeyStep (env : ReconEnv) (latest_storage_id : Option ℤ)
    (can_reconcile_fn : AssetKeyPartitionKey → Bool)
    (state : List AssetKeyPartitionKey × Option ℤ) (asset_key : AssetKey) :
    List AssetKeyPartitionKey × Option ℤ :=
  if env.is_source asset_key then state
  else
    match latestRecordAsset env.store asset_key latest_storage_id with
    | none => state
    | some latest_record =>
      let result :=
        (env.children_partitions asset_key latest_record.partition_key).foldl
          (fun result child =>
            if decide (child.asset_key ∈ env.target_asset_keys)
                && !env.is_asset_planned_for_run latest_record.run_id child then
              insertAP result child
            else result)
          state.1
      let result_latest_storage_id :=
        match state.2 with
        | none => some latest_record.storage_id
        | some a =>
          if latest_record.storage_id > a then some latest_record.storage_id else some a
      let result :=
        if env.is_partitioned asset_key then
          (materializedPartitionsSince env.store asset_key latest_storage_id).foldl
            (fun result partition_key =>
              (env.children_partitions asset_key (some partition_key)).foldl
                (fun result child =>
                  process_child_partitioned env can_reconcile_fn asset_key partition_key
                    latest_storage_id child result)
                result)
            result
        else result
      (result, result_latest_storage_id)

/-- `find_parent_materialized_asset_partitions`. -/
def find_parent_materialized_asset_partitions (env : ReconEnv)
    (latest_storage_id : Option ℤ)
    (can_reconcile_fn : AssetKeyPartitionKey → Bool) :
    List AssetKeyPartitionKey × Option ℤ :=
  env.target_parent_asset_keys.foldl
    (parentKeyStep env latest_storage_id can_reconcile_fn) ([], latest_storage_id)

/-- Accumulator of the root detector: candidates, newly materialized
unpartitioned roots, newly materialized root partitions. -/
structure RootAcc where
  never_materialized_or_requested : List AssetKeyPartitionKey
  newly_materialized_root_asset_keys : List AssetKey
  newly_materialized_root_partitions_by_asset_key : List (AssetKey × List String)
deriving DecidableEq, Repr

/-- One partition key of a partitioned root in the root detector:
classified as newly materialized (when a record exists) or as a
never-materialized candidate. -/
def rootPartitionStep (env : ReconEnv) (asset_key : AssetKey) (acc : RootAcc)
    (partition_key : String) : RootAcc :=
  if (latestRecordAP env.store ⟨asset_key, some partition_key⟩ none).isSome then
    { acc with
      newly_materialized_root_partitions_by_asset_key :=
        setKey acc.newly_materialized_root_partitions_by_asset_key asset_key
          ((lookupKey acc.newly_materialized_root_partitions_by_asset_key
                asset_key).getD []
            ++ [partition_key]) }
  else
    { acc with
      never_materialized_or_requested :=
        insertAP acc.never_materialized_or_requested ⟨asset_key, some partition_key⟩ }

/-- One root asset of the loop of
`find_never_materialized_or_requested_root_asset_partitions`. -/
def rootKeyStep (env : ReconEnv) (cursor : AssetReconciliationCursor) (acc : RootAcc)
    (asset_key : AssetKey) : RootAcc :=
  if env.is_partitioned asset_key then
    (cursor.get_never_requested_never_materialized_partitions env asset_key).foldl
      (rootPartitionStep env asset_key) acc
  else if !cursor.was_previously_materialized_or_requested asset_key then
    if (latestRecordAP env.store ⟨asset_key, none⟩ none).isSome then
      { acc with
        newly_materialized_root_asset_keys :=
          acc.newly_materialized_root_asset_keys ++ [asset_key] }
    else
      { acc with
        never_materialized_or_requested :=
          insertAP acc.never_materialized_or_requested ⟨asset_key, none⟩ }
  else acc

/-- `find_never_materialized_or_requested_root_asset_partitions`. -/
def find_never_materialized_or_requested_root_asset_partitions (env : ReconEnv)
    (cursor : AssetReconciliationCursor) : RootAcc :=
  env.target_root_asset_keys.foldl (rootKeyStep env cursor) ⟨[], [], []⟩

/-- `parents_will_be_reconciled`. -/
def parents_will_be_reconciled (env : ReconEnv)
    (to_reconcile : List AssetKeyPartitionKey) (candidate : AssetKeyPartitionKey) : Bool :=
  (env.parents_partitions candidate).all fun parent =>
    (decide (parent ∈ to_reconcile)
        && env.have_same_partitioning parent.asset_key candidate.asset_key
        && decide (parent.partition_key = candidate.partition_key))
      || env.is_reconciled parent

/-- `should_reconcile`: the acceptance predicate of the graph closure. -/
def should_reconcile (env : ReconEnv)
    (eventual_asset_partitions_to_reconcile_for_freshness : List AssetKeyPartitionKey)
    (backfill_target_asset_graph_subset : List AssetKeyPartitionKey)
    (candidates_unit : List AssetKeyPartitionKey)
    (to_reconcile : List AssetKeyPartitionKey) : Bool :=
  if !candidates_unit_within_allowable_time_window env candidates_unit then false
  else if
      candidates_unit.any fun candidate =>
        decide (candidate ∈ eventual_asset_partitions_to_reconcile_for_freshness)
          || decide (candidate ∈ backfill_target_asset_graph_subset)
          || decide (candidate.asset_key ∉ env.target_asset_keys) then
    false
  else
    candidates_unit.all (parents_will_be_reconciled env to_reconcile)
      && candidates_unit.any fun candidate => !env.is_reconciled candidate

/-- Modelled from the spec (§4.5): `asset_graph.bfs_filter_asset_partitions`,
a breadth-first expansion guided by the acceptance predicate.  Each
dequeued candidate is evaluated as its whole co-materialization group,
all-or-nothing; the children of accepted units are enqueued; accepted
units are only ever added.  `fuel` bounds the number of steps (the
source traversal terminates because the graph is finite and acyclic). -/
def bfsFilter (groupOf : AssetKeyPartitionKey → List AssetKeyPartitionKey)
    (childrenOf : AssetKeyPartitionKey → List AssetKeyPartitionKey)
    (condition : List AssetKeyPartitionKey → List AssetKeyPartitionKey → Bool) :
    ℕ → List AssetKeyPartitionKey → List AssetKeyPartitionKey →
      List AssetKeyPartitionKey
  | 0, _, acc => acc
  | _ + 1, [], acc => acc
  | fuel + 1, u :: queue, acc =>
    let g := groupOf u
    if condition g acc then
      bfsFilter groupOf childrenOf condition fuel (queue ++ (g.map childrenOf).flatten)
        (acc ++ g)
    else bfsFilter groupOf childrenOf condition fuel queue acc

/-- The `can_reconcile_fn` quick filter built inside
`determine_asset_partitions_to_reconcile`. -/
def can_reconcile_fn (env : ReconEnv) (candidate : AssetKeyPartitionKey) : Bool :=
  match candidate.partition_key with
  | none => true
  | some _ => candidates_unit_within_allowable_time_window env [candidate]

/-- `determine_asset_partitions_to_reconcile`. -/
def determine_asset_partitions_to_reconcile (env : ReconEnv)
    (cursor : AssetReconciliationCursor)
    (eventual_asset_partitions_to_reconcile_for_freshness : List AssetKeyPartitionKey)
    (fuel : ℕ) :
    Except String
      (List AssetKeyPartitionKey × List AssetKey × List (AssetKey × List String)
        × Option ℤ) := do
  let roots := find_never_materialized_or_requested_root_asset_partitions env cursor
  let stale :=
    find_parent_materialized_asset_partitions env cursor.latest_storage_id
      (can_reconcile_fn env)
  let backfill_target_asset_graph_subset ←
    get_active_backfill_target_asset_graph_subset env
  let to_reconcile :=
    bfsFilter env.groupOf env.children_of
      (should_reconcile env eventual_asset_partitions_to_reconcile_for_freshness
        backfill_target_asset_graph_subset)
      fuel (roots.never_materialized_or_requested ++ stale.1) []
  return (to_reconcile, roots.newly_materialized_root_asset_keys,
    roots.newly_materialized_root_partitions_by_asset_key, stale.2)

/-- Python truthiness of an optional `pendulum.Period` (a zero-length
period equals `timedelta(0)` and is falsy). -/
def periodTruthy : Option Period → Bool
  | none => false
  | some p => decide (p.start ≠ p.stop)

/-- `max(filter(None, xs), default=None)`. -/
def maxOfOptions (l : List (Option Time)) : Option Time :=
  match l.filterMap id with
  | [] => none
  | v :: vs => some (vs.foldl max v)

/-- State of the freshness pass: the selected set, the eventual set and
`expected_data_time_by_key`. -/
structure FreshnessAcc where
  to_materialize : List AssetKeyPartitionKey
  eventually_materialize : List AssetKeyPartitionKey
  expected_data_time_by_key : List (AssetKey × Option Time)

/-- The per-asset body of
`determine_asset_partitions_to_reconcile_for_freshness` (lines 627-693).
(`expected_data_time` is always an actual time: the parents' minimum
defaults to the evaluation time, so the source's `is not None` test on
it is vacuous.) -/
def freshnessStep (env : ReconEnv) (acc : FreshnessAcc) (key : AssetKey) : FreshnessAcc :=
  if env.is_source key || (env.downstream_freshness_policies key).isEmpty then acc
  else
    let current_data_time := env.current_data_time key
    let parent_times :=
      (env.get_parents key).filterMap fun k =>
        (lookupKey acc.expected_data_time_by_key k).bind id
    let expected_data_time : Time :=
      match parent_times with
      | [] => env.evaluation_time
      | v :: vs => vs.foldl min v
    let execution_period : Option Period :=
      if decide (key ∈ env.target_asset_keys) then
        get_execution_period_for_policies (env.downstream_freshness_policies key)
          (maxOfOptions
            [current_data_time, env.in_progress_data_time key, env.failed_data_time key])
          env.evaluation_time
      else none
    let eventually_materialize :=
      if periodTruthy execution_period then
        insertAP acc.eventually_materialize ⟨key, none⟩
      else acc.eventually_materialize
    let asset_key_partition_key : AssetKeyPartitionKey := ⟨key, none⟩
    if decide (asset_key_partition_key ∈ acc.to_materialize) then
      { acc with
        eventually_materialize
        expected_data_time_by_key :=
          (key, some expected_data_time) :: acc.expected_data_time_by_key }
    else if h : execution_period.isSome then
      let ep := execution_period.get h
      if decide (ep.start ≤ env.evaluation_time)
          && decide (expected_data_time ≥ ep.start) then
        { to_materialize :=
            (env.required_multi_asset_keys key).foldl
              (fun tm required_key => insertAP tm ⟨required_key, none⟩)
              (insertAP acc.to_materialize asset_key_partition_key)
          eventually_materialize
          expected_data_time_by_key :=
            (key, some expected_data_time) :: acc.expected_data_time_by_key }
      else
        { acc with
          eventually_materialize
          expected_data_time_by_key :=
            (key, current_data_time) :: acc.expected_data_time_by_key }
    else
      { acc with
        eventually_materialize
        expected_data_time_by_key :=
          (key, current_data_time) :: acc.expected_data_time_by_key }

/-- `determine_asset_partitions_to_reconcile_for_freshness`: fold over
the topological levels of the graph. -/
def determine_asset_partitions_to_reconcile_for_freshness (env : ReconEnv) :
    List AssetKeyPartitionKey × List AssetKeyPartitionKey :=
  let acc :=
    env.toposort_levels.foldl (fun acc level => level.foldl (freshnessStep env) acc)
      ⟨[], [], []⟩
  (acc.to_materialize, acc.eventually_materialize)

/-- Map a fallible function over a list, stopping at the first error. -/
def exceptMapM {α β : Type} (f : α → Except String β) : List α → Except String (List β)
  | [] => .ok []
  | a :: as =>
    match f a with
    | .error e => .error e
    | .ok b =>
      match exceptMapM f as with
      | .error e => .error e
      | .ok bs => .ok (b :: bs)

/-- Modelled from the spec: the partition-derived tags attached by
`partitions_def.get_tags_for_partition_key`. -/
def partitionTags (_pd : PartitionsDef) (partition_key : String) :
    List (String × String) :=
  [("dagster/partition", partition_key)]

/-- Insert an asset key into the request group of its
`(partitions_def, partition_key)` pair. -/
def upsertGroup (gs : List ((Option PartitionsDef × Option String) × List AssetKey))
    (key : Option PartitionsDef × Option String) (k : AssetKey) :
    List ((Option PartitionsDef × Option String) × List AssetKey) :=
  match gs with
  | [] => [(key, [k])]
  | (key', ks) :: rest =>
    if key' = key then (key', ks ++ [k]) :: rest else (key', ks) :: upsertGroup rest key k

/-- `build_run_requests`: group the decided units by partitions
definition and partition key; a partition key on an unpartitioned asset
is a `check.failed` (`Except.error`). -/
def build_run_requests (env : ReconEnv)
    (asset_partitions : List AssetKeyPartitionKey) : Except String (List RunRequest) :=
  let groups :=
    asset_partitions.foldl
      (fun gs asset_partition =>
        upsertGroup gs
          (env.get_partitions_def asset_partition.asset_key, asset_partition.partition_key)
          asset_partition.asset_key)
      []
  exceptMapM
    (fun g =>
      match g.1.2 with
      | some partition_key =>
        match g.1.1 with
        | none => .error "Partition key provided for unpartitioned asset"
        | some partitions_def =>
          .ok
            ⟨g.2, some partition_key,
              env.run_tags ++ partitionTags partitions_def partition_key⟩
      | none => .ok ⟨g.2, none, env.run_tags⟩)
    groups

/-- `reconcile`: one evaluation tick.  The prefetches of the source are
query batching with no semantic effect; `pendulum.now` is the
environment's evaluation time. -/
def reconcile (env : ReconEnv) (cursor : AssetReconciliationCursor) (fuel : ℕ) :
    Except String (List RunRequest × AssetReconciliationCursor) := do
  let (asset_partitions_to_reconcile, newly_materialized_root_asset_keys,
      newly_materialized_root_partitions_by_asset_key, latest_storage_id) ←
    determine_asset_partitions_to_reconcile env cursor
      (determine_asset_partitions_to_reconcile_for_freshness env).2 fuel
  let run_requests ←
    build_run_requests env
      ((determine_asset_partitions_to_reconcile_for_freshness env).1.foldl insertAP
        asset_partitions_to_reconcile)
  let updated ←
    cursor.with_updates env latest_storage_id run_requests
      newly_materialized_root_asset_keys
      newly_materialized_root_partitions_by_asset_key
  return (run_requests, updated)

/-- An environment with an empty store, an empty graph and an empty
selection; the concrete environments of the theorems below override the
relevant fields. -/
def trivialEnv : ReconEnv where
  store := []
  is_asset_planned_for_run := fun _ _ => false
  is_reconciled := fun _ => false
  is_source := fun _ => false
  children_partitions := fun _ _ => []
  parents_partitions := fun _ => []
  children_of := fun _ => []
  groupOf := fun u => [u]
  have_same_partitioning := fun _ _ => true
  has_non_source_parents := fun _ => false
  get_partitions_def := fun _ => none
  target_asset_keys := []
  target_parent_asset_keys := []
  target_root_asset_keys := []
  backfills := []
  toposort_levels := []
  get_parents := fun _ => []
  downstream_freshness_policies := fun _ => []
  required_multi_asset_keys := fun _ => []
  current_data_time := fun _ => none
  in_progress_data_time := fun _ => none
  failed_data_time := fun _ => none
  run_tags := []
  evaluation_time := 0

/-- Environment for the partitioned-parent counterexample: asset
`parent` is partitioned; the run `r0` materialized its partition `a`
and also planned the unpartitioned child `child`. -/
def envC2 : ReconEnv :=
  { trivialEnv with
    store := [⟨"parent", some "a", "r0", 5⟩]
    is_asset_planned_for_run := fun run_id child =>
      decide (run_id = "r0") && decide (child.asset_key = "child")
    children_partitions := fun k pk =>
      if k = "parent" ∧ pk = some "a" then [⟨"child", none⟩] else []
    get_partitions_def := fun k => if k = "parent" then some (.static ["a"]) else none
    target_asset_keys := ["child"]
    target_parent_asset_keys := ["parent"] }

/-- Environment for the idempotence counterexample: the single asset `a`
was materialized long ago (data time 10) and carries a freshness policy
with maximum lag 100, evaluated at time 200; the record store does not
change between the two ticks. -/
def envC8 : ReconEnv :=
  { trivialEnv with
    store := [⟨"a", none, "r0", 1⟩]
    target_asset_keys := ["a"]
    target_parent_asset_keys := ["a"]
    target_root_asset_keys := ["a"]
    toposort_levels := [["a"]]
    downstream_freshness_policies := fun k => if k = "a" then [⟨100, none⟩] else []
    current_data_time := fun k => if k = "a" then some 10 else none
    evaluation_time := 200 }

/-- The arguments of one `with_updates` call (for iterating updates). -/
structure UpdateArgs where
  latest_storage_id : Option ℤ
  run_requests : List RunRequest
  newly_materialized_root_asset_keys : List AssetKey
  newly_materialized_root_partitions_by_asset_key : List (AssetKey × List String)

/-- A sequence of `with_updates` calls, each feeding the next. -/
def applyUpdates (env : ReconEnv) :
    AssetReconciliationCursor → List UpdateArgs → Except String AssetReconciliationCursor
  | c, [] => .ok c
  | c, u :: us =>
    match
      c.with_updates env u.latest_storage_id u.run_requests
        u.newly_materialized_root_asset_keys
        u.newly_materialized_root_partitions_by_asset_key with
    | .error e => .error e
    | .ok c' => applyUpdates env c' us

/-- Freshness policy with `maximum_lag_minutes` of 850/3 (17000000000 μs
≈ 283.33 minutes) and no cron schedule: at effective data time 05:45 and
evaluation time 10:30 its execution period is [10:00, 10:30). -/
def policyA : FreshnessPolicy := ⟨17000000000, none⟩

/-- Freshness policy with a 300-minute lag (18000000000 μs) and no cron
schedule: at effective data time 05:45 and evaluation time 10:30 its
execution period is [10:15, 10:45). -/
def policyB : FreshnessPolicy := ⟨18000000000, none⟩

/-- 05:45 as microseconds since midnight. -/
def t0545 : Time := 20700000000

/-- 10:00 as microseconds since midnight. -/
def t1000 : Time := 36000000000

/-- 10:15 as microseconds since midnight. -/
def t1015 : Time := 36900000000

/-- 10:30 as microseconds since midnight. -/
def t1030 : Time := 37800000000

/-- 10:45 as microseconds since midnight. -/
def t1045 : Time := 38700000000

/-- Daily partitions starting at epoch 0. -/
def twDaily : TimeWindowPartitionsDef := ⟨0, 86400000000⟩

/-- Environment for the time-window boundary counterexample: `asset` has
daily partitions; the evaluation time is day 5, so the latest complete
window is `[4 days, 5 days)`. -/
def envC4 : ReconEnv :=
  { trivialEnv with
    get_partitions_def := fun k => if k = "asset" then some (.timeWindow twDaily) else none
    evaluation_time := 432000000000 }

/-- Environment for the acceptance-predicate witness: the unpartitioned
asset `d` has the single reconciled parent `p`. -/
def envC1 : ReconEnv :=
  { trivialEnv with
    parents_partitions := fun c => if c = ⟨"d", none⟩ then [⟨"p", none⟩] else []
    is_reconciled := fun ap => decide (ap = ⟨"p", none⟩)
    target_asset_keys := ["d"] }

/-- Environment for the backfill-exclusion witness: one REQUESTED asset
backfill targets the unit `x`. -/
def envC7 : ReconEnv :=
  { trivialEnv with
    backfills := [⟨.REQUESTED, true, some [⟨"x", none⟩]⟩]
    target_asset_keys := ["x"] }

/-- Environment for the round-trip witness: two partitioned root assets. -/
def envC9 : ReconEnv :=
  { trivialEnv with
    get_partitions_def := fun k =>
      if k = "p1" ∨ k = "p2" then some (.static ["x", "y", "z"]) else none }

/-- A cursor with a watermark, two recorded roots and partitions of two
assets. -/
def cursorC9 : AssetReconciliationCursor :=
  ⟨some 7, ["r1", "r2"], [("p1", ["x", "y"]), ("p2", ["z"])]⟩

/-- Environment for the idempotence witness: one never-materialized root
asset `a` and no freshness policies. -/
def envC8w : ReconEnv :=
  { trivialEnv with
    target_asset_keys := ["a"]
    target_parent_asset_keys := ["a"]
    target_root_asset_keys := ["a"] }

/-- Freshness policy for the execution-period witness: lag 50 with a
cron schedule ticking at the start timestamp and 100 later. -/
def policyC5 : FreshnessPolicy := ⟨50, some fun t => [t, t + 100]⟩

/-- The condition under which the root detector classifies `u` as a
never-materialized never-requested candidate of the root asset `k`. -/
def rootCond (env : ReconEnv) (cursor : AssetReconciliationCursor) (k : AssetKey)
    (u : AssetKeyPartitionKey) : Prop :=
  u.asset_key = k ∧ latestRecordAP env.store u none = none
    ∧ ((env.is_partitioned k = true
          ∧ ∃ p, u.partition_key = some p
            ∧ p ∈ cursor.get_never_requested_never_materialized_partitions env k)
      ∨ (env.is_partitioned k = false ∧ u.partition_key = none
          ∧ cursor.was_previously_materialized_or_requested k = false))

/-! ## Theorems -/

/-- C3, counterexample: the required execution periods of the two
policies are [10:00, 10:30) and [10:15, 10:45), but the merged period is
[10:15, 10:45), not the claimed [10:00, 10:45): the merge takes the
maximum of the starts. -/
theorem c3_counterexample :
    get_execution_period_for_policy policyA (some t0545) t1030 = some ⟨t1000, t1030⟩
    ∧ get_execution_period_for_policy policyB (some t0545) t1030 = some ⟨t1015, t1045⟩
    ∧ get_execution_period_for_policies [policyA, policyB] (some t0545) t1030
        = some ⟨t1015, t1045⟩
    ∧ some (⟨t1015, t1045⟩ : Period) ≠ some ⟨t1000, t1045⟩ := by
  refine ⟨by decide, by decide, by decide, by decide⟩

/-- C3, amended: for two policies on the same asset whose required
execution periods are `[s1, e1)` and `[s2, e2)` with `e1 ≤ e2` and
`s2 ≤ e1` (overlap), `get_execution_period_for_policies` returns the
period `[max s2 s1, e2)` — the later start and the later end — so for
periods [10:00, 10:30) and [10:15, 10:45) it returns [10:15, 10:45). -/
theorem c3_amended (pA pB : FreshnessPolicy) (edt now s1 e1 s2 e2 : Time)
    (hA : get_execution_period_for_policy pA (some edt) now = some ⟨s1, e1⟩)
    (hB : get_execution_period_for_policy pB (some edt) now = some ⟨s2, e2⟩)
    (hend : e1 ≤ e2) (hoverlap : s2 ≤ e1) :
    get_execution_period_for_policies [pA, pB] (some edt) now = some ⟨max s2 s1, e2⟩ := by
  simp only [get_execution_period_for_policies, List.filterMap_cons, hA, hB,
    List.filterMap_nil, sortByEnd, List.foldl, insertByEnd]
  rw [if_neg (by exact not_lt.mpr hend)]
  simp only [mergeSortedPeriods]
  rw [if_pos hoverlap]

/-- Witness for `c3_amended` at the two concrete policies. -/
theorem c3_amended_witness :
    get_execution_period_for_policies [policyA, policyB] (some t0545) t1030
      = some ⟨max t1015 t1000, t1045⟩ :=
  c3_amended policyA policyB t0545 t1030 t1000 t1030 t1015 t1045 (by decide) (by decide)
    (by decide) (by decide)

/-- C4, counterexample: with daily partitions and the latest window
starting at day 4, the partition whose window starts exactly one day
earlier (partition `3`, window `[day 3, day 4)`) is REJECTED by the
window check, contrary to the claim that it is included: the allowable
window starts at `latest.start - 1 day + resolution`, strictly after
`latest.start - 1 day`. -/
theorem c4_counterexample :
    twDaily.get_last_partition_window envC4.evaluation_time
        = some ⟨345600000000, 432000000000⟩
    ∧ (twDaily.time_window_for_partition_key "3").start = 345600000000 - oneDay
    ∧ candidates_unit_within_allowable_time_window envC4 [⟨"asset", some "3"⟩] = false := by
  refine ⟨by decide, by decide, by decide⟩

/-- C4, amended: the allowable window is
`[max(firstWindow.start, lastWindow.start - 1 day + ε), lastWindow.end)`
(or none if the asset has no partitions yet); a time-partitioned
candidate passes the window check iff its window starts at or after that
maximum and ends by `lastWindow.end`; consequently a partition whose
window starts exactly at `lastWindow.start - 1 day` is excluded (one
partition earlier is therefore likewise excluded). -/
theorem c4_amended (env : ReconEnv) (tw : TimeWindowPartitionsDef) (a : AssetKey)
    (pk : String) (fw lw : TimeWindow)
    (hdef : env.get_partitions_def a = some (.timeWindow tw))
    (hpk : pk ≠ "")
    (hlast : tw.get_last_partition_window env.evaluation_time = some lw)
    (hfirst : tw.get_first_partition_window env.evaluation_time = some fw) :
    allowable_time_window_for_partitions_def tw env.evaluation_time
        = some ⟨max fw.start (lw.start - oneDay + resolution), lw.stop⟩
    ∧ (candidates_unit_within_allowable_time_window env [⟨a, some pk⟩] = true
        ↔ ((tw.time_window_for_partition_key pk).start
              ≥ max fw.start (lw.start - oneDay + resolution)
            ∧ (tw.time_window_for_partition_key pk).stop ≤ lw.stop))
    ∧ ((tw.time_window_for_partition_key pk).start = lw.start - oneDay →
        candidates_unit_within_allowable_time_window env [⟨a, some pk⟩] = false) := by
  have hallow : allowable_time_window_for_partitions_def tw env.evaluation_time
      = some ⟨max fw.start (lw.start - oneDay + resolution), lw.stop⟩ := by
    simp [allowable_time_window_for_partitions_def, hlast, hfirst]
  have hiff : candidates_unit_within_allowable_time_window env [⟨a, some pk⟩] = true
      ↔ ((tw.time_window_for_partition_key pk).start
            ≥ max fw.start (lw.start - oneDay + resolution)
          ∧ (tw.time_window_for_partition_key pk).stop ≤ lw.stop) := by
    simp [candidates_unit_within_allowable_time_window, hdef, hpk, hallow]
  refine ⟨hallow, hiff, fun hstart => ?_⟩
  have hlt : (tw.time_window_for_partition_key pk).start
      < max fw.start (lw.start - oneDay + resolution) := by
    have h1 : lw.start - oneDay + resolution
        ≤ max fw.start (lw.start - oneDay + resolution) :=
      le_max_right _ _
    rw [hstart]
    exact lt_of_lt_of_le (by simp [resolution]) h1
  cases hcand : candidates_unit_within_allowable_time_window env [⟨a, some pk⟩] with
  | false => rfl
  | true => exact absurd (hiff.mp hcand).1 (not_le.mpr hlt)

/-- Witness for `c4_amended` at the daily partitions of `envC4`:
partition `3` (window start exactly one day before the latest window's
start) is excluded. -/
theorem c4_amended_witness :
    allowable_time_window_for_partitions_def twDaily envC4.evaluation_time
        = some ⟨max (0 : ℤ) (345600000000 - oneDay + resolution), 432000000000⟩
    ∧ candidates_unit_within_allowable_time_window envC4 [⟨"asset", some "3"⟩]
        = false :=
  have h := c4_amended envC4 twDaily "asset" "3" ⟨0, 86400000000⟩
    ⟨345600000000, 432000000000⟩ (by decide) (by decide) (by decide) (by decide)
  ⟨h.1, h.2.2 (by decide)⟩

/-- C6, counterexample: with previous watermark 5 and new watermark 0,
both watermarks are set and the new one is strictly smaller, yet
`with_updates` raises no error and silently keeps the old watermark
(Python truthiness treats the watermark 0 like an absent one). -/
theorem c6_counterexample :
    ((⟨some 5, [], []⟩ : AssetReconciliationCursor).with_updates trivialEnv
          (some 0) [] [] []).toOption
        = some ⟨some 5, [], []⟩
    ∧ (0 : ℤ) < 5 := by
  refine ⟨by decide, by decide⟩

/-- Shape of `with_updates`: some recorded root keys `RK` and root
partitions `RP` (whose values do not depend on the watermarks) together
with the watermark logic. -/
theorem with_updates_eq (c : AssetReconciliationCursor) (env : ReconEnv) (L : Option ℤ)
    (rr : List RunRequest) (nk : List AssetKey) (np : List (AssetKey × List String)) :
    ∃ RK RP,
      c.with_updates env L rr nk np =
        if truthyId L && truthyId c.latest_storage_id then
          if (L.getD 0) ≥ (c.latest_storage_id.getD 0) then
            .ok ⟨orId L c.latest_storage_id, RK, RP⟩
          else .error "Latest storage ID should be >= previous latest storage ID"
        else .ok ⟨orId L c.latest_storage_id, RK, RP⟩ :=
  ⟨_, _, rfl⟩

/-- C6, amended: `with_updates` raises the monotonicity error iff the
previous and the new watermark are both set AND nonzero and the new one
is strictly smaller (Python truthiness exempts a zero watermark from the
check); on every successful update whose watermarks are both set and
nonzero, the resulting watermark is the new one and is at least the
previous one. -/
theorem c6_amended (c : AssetReconciliationCursor) (env : ReconEnv) (L : Option ℤ)
    (rr : List RunRequest) (nk : List AssetKey) (np : List (AssetKey × List String)) :
    ((∃ e, c.with_updates env L rr nk np = .error e)
      ↔ ∃ a b, L = some a ∧ c.latest_storage_id = some b ∧ a ≠ 0 ∧ b ≠ 0 ∧ a < b)
    ∧ (∀ c' a b, c.with_updates env L rr nk np = .ok c' → L = some a →
        c.latest_storage_id = some b → a ≠ 0 → b ≠ 0 →
        c'.latest_storage_id = some a ∧ b ≤ a) := by
  obtain ⟨RK, RP, heq⟩ := with_updates_eq c env L rr nk np
  constructor
  · rw [heq]
    cases L with
    | none => simp [truthyId]
    | some a =>
      cases hc : c.latest_storage_id with
      | none => simp [truthyId]
      | some b =>
        by_cases ha : a = 0
        · simp [truthyId, ha]
        · by_cases hb : b = 0
          · simp [truthyId, ha, hb]
          · rw [if_pos (by simp [truthyId, ha, hb])]
            by_cases hab : (some a : Option ℤ).getD 0 ≥ (some b : Option ℤ).getD 0
            · rw [if_pos hab]
              simp only [Option.getD_some] at hab
              constructor
              · rintro ⟨e, h⟩
                exact absurd h (by simp)
              · rintro ⟨a', b', ha', hb', -, -, hlt⟩
                cases ha'
                cases hb'
                omega
            · rw [if_neg hab]
              simp only [Option.getD_some, not_le] at hab
              exact ⟨fun _ => ⟨a, b, rfl, rfl, ha, hb, hab⟩, fun _ => ⟨_, rfl⟩⟩
  · intro c' a b hok ha hb ha0 hb0
    subst ha
    rw [heq, hb] at hok
    rw [if_pos (by simp [truthyId, ha0, hb0])] at hok
    by_cases hab : (some a : Option ℤ).getD 0 ≥ (some b : Option ℤ).getD 0
    · rw [if_pos hab] at hok
      injection hok with h
      subst h
      simp only [Option.getD_some] at hab
      refine ⟨?_, hab⟩
      simp [orId, truthyId, ha0]
    · rw [if_neg hab] at hok
      exact Except.noConfusion hok

/-- Witness for `c6_amended`: the error direction at new watermark 2 and
previous watermark 3, and the success direction at new watermark 7. -/
theorem c6_amended_witness :
    (∃ e, (⟨some 3, [], []⟩ : AssetReconciliationCursor).with_updates trivialEnv
        (some 2) [] [] [] = .error e)
    ∧ ((⟨some 7, [], []⟩ : AssetReconciliationCursor).latest_storage_id = some 7
        ∧ (3 : ℤ) ≤ 7) :=
  ⟨(c6_amended ⟨some 3, [], []⟩ trivialEnv (some 2) [] [] []).1.mpr
      ⟨2, 3, rfl, rfl, by decide, by decide, by decide⟩,
    (c6_amended ⟨some 3, [], []⟩ trivialEnv (some 7) [] [] []).2 ⟨some 7, [], []⟩ 7 3
      (by decide) rfl rfl (by decide) (by decide)⟩

/-- Every successful `with_updates` sets the watermark to `new or old`
(Python `or`). -/
theorem with_updates_ok_latest (c : AssetReconciliationCursor) (env : ReconEnv)
    (L : Option ℤ) (rr : List RunRequest) (nk : List AssetKey)
    (np : List (AssetKey × List String)) (c' : AssetReconciliationCursor)
    (h : c.with_updates env L rr nk np = .ok c') :
    c'.latest_storage_id = orId L c.latest_storage_id := by
  obtain ⟨RK, RP, heq⟩ := with_updates_eq c env L rr nk np
  rw [heq] at h
  split at h
  · split at h
    · injection h with h'
      rw [← h']
    · exact Except.noConfusion h
  · injection h with h'
    rw [← h']

/-- `orId` preserves a set watermark. -/
theorem orId_isSome (L cl : Option ℤ) (h : cl.isSome) : (orId L cl).isSome := by
  unfold orId
  split
  · cases L with
    | none => simp [truthyId] at *
    | some a => rfl
  · exact h

/-- `with_updates` can only fail when both watermarks are set. -/
theorem with_updates_error_isSome (c : AssetReconciliationCursor) (env : ReconEnv)
    (L : Option ℤ) (rr : List RunRequest) (nk : List AssetKey)
    (np : List (AssetKey × List String)) (e : String)
    (h : c.with_updates env L rr nk np = .error e) :
    L.isSome ∧ c.latest_storage_id.isSome := by
  obtain ⟨RK, RP, heq⟩ := with_updates_eq c env L rr nk np
  rw [heq] at h
  split at h
  · next hcond =>
    rw [Bool.and_eq_true] at hcond
    refine ⟨?_, ?_⟩
    · cases L with
      | none => simp [truthyId] at hcond
      | some a => rfl
    · cases hcl : c.latest_storage_id with
      | none => rw [hcl] at hcond; simp [truthyId] at hcond
      | some b => rfl
  · exact Except.noConfusion h

/-- C10: a `with_updates` call with an absent new watermark succeeds and
keeps the previous watermark; a set watermark is preserved by every
successful update and hence by every sequence of updates; and the
monotonicity check can only fire (raise) when both the old and the new
watermark are set. -/
theorem c10_with_updates_watermark_retention (env : ReconEnv)
    (c : AssetReconciliationCursor) (rr : List RunRequest) (nk : List AssetKey)
    (np : List (AssetKey × List String)) :
    (∃ c', c.with_updates env none rr nk np = .ok c'
        ∧ c'.latest_storage_id = c.latest_storage_id)
    ∧ (∀ L c', c.latest_storage_id.isSome → c.with_updates env L rr nk np = .ok c' →
        c'.latest_storage_id.isSome)
    ∧ (∀ L e, c.with_updates env L rr nk np = .error e →
        L.isSome ∧ c.latest_storage_id.isSome)
    ∧ (∀ us c', c.latest_storage_id.isSome → applyUpdates env c us = .ok c' →
        c'.latest_storage_id.isSome) := by
  refine ⟨?_, ?_, ?_, ?_⟩
  · obtain ⟨RK, RP, heq⟩ := with_updates_eq c env none rr nk np
    refine ⟨⟨orId none c.latest_storage_id, RK, RP⟩, ?_, by simp [orId, truthyId]⟩
    rw [heq]
    simp [truthyId]
  · intro L c' hsome hok
    rw [with_updates_ok_latest c env L rr nk np c' hok]
    exact orId_isSome L _ hsome
  · intro L e herr
    exact with_updates_error_isSome c env L rr nk np e herr
  · intro us
    induction us generalizing c with
    | nil =>
      intro c' hsome hok
      simp only [applyUpdates] at hok
      injection hok with h
      rw [← h]
      exact hsome
    | cons u us ih =>
      intro c' hsome hok
      simp only [applyUpdates] at hok
      cases hw : c.with_updates env u.latest_storage_id u.run_requests
          u.newly_materialized_root_asset_keys
          u.newly_materialized_root_partitions_by_asset_key with
      | error e => rw [hw] at hok; exact Except.noConfusion hok
      | ok c'' =>
        rw [hw] at hok
        have hsome'' : c''.latest_storage_id.isSome := by
          rw [with_updates_ok_latest c env _ _ _ _ c'' hw]
          exact orId_isSome _ _ hsome
        exact ih c'' c' hsome'' hok

/-- Witness for `c10_with_updates_watermark_retention`: after applying
two updates (one with a new watermark, one without) to a cursor with
watermark 3, the watermark is still set. -/
theorem c10_witness :
    ((⟨some 7, [], []⟩ : AssetReconciliationCursor).latest_storage_id).isSome :=
  (c10_with_updates_watermark_retention trivialEnv ⟨some 3, [], []⟩ [] [] []).2.2.2
    [⟨some 7, [], [], []⟩, ⟨none, [], [], []⟩] ⟨some 7, [], []⟩ (by decide) (by decide)

/-- The cron walk returns the period of the first unsatisfied tick. -/
theorem firstUnsatisfiedTick_append (lag edt t0 : Time) (ts1 ts2 : List Time)
    (hfirst : ∀ t ∈ ts1, ¬ edt < t - lag) (ht0 : edt < t0 - lag) :
    firstUnsatisfiedTick lag edt (ts1 ++ t0 :: ts2) = some ⟨t0 - lag, t0⟩ := by
  induction ts1 with
  | nil => simp [firstUnsatisfiedTick, ht0]
  | cons t ts ih =>
    simp only [List.cons_append, firstUnsatisfiedTick]
    rw [if_neg (hfirst t (List.mem_cons_self t ts))]
    exact ih fun t' ht' => hfirst t' (List.mem_cons_of_mem t ht')

/-- C5: `get_execution_period_for_policy` returns the zero-length period
at `now` when the effective data time is absent; with a cron schedule
(whose iterator yields the ticks at or after `now` in order) it returns
`[tick - lag, tick)` for the first tick whose required data time
exceeds the effective data time; and without a cron schedule it returns
`[edt + 0.9 * lag, max (edt + lag) now)`. -/
theorem c5_execution_period_for_policy (lag now edt t0 : Time) (ts1 ts2 : List Time)
    (cronIter : Time → List Time)
    (hiter : cronIter now = ts1 ++ t0 :: ts2)
    (hnow : ∀ t ∈ cronIter now, now ≤ t)
    (hfirst : ∀ t ∈ ts1, ¬ edt < t - lag)
    (ht0 : edt < t0 - lag) :
    (∀ cron, get_execution_period_for_policy ⟨lag, cron⟩ none now = some ⟨now, now⟩)
    ∧ get_execution_period_for_policy ⟨lag, some cronIter⟩ (some edt) now
        = some ⟨t0 - lag, t0⟩
    ∧ get_execution_period_for_policy ⟨lag, none⟩ (some edt) now
        = some ⟨edt + ninetyPercent lag, max (edt + lag) now⟩ := by
  refine ⟨fun cron => rfl, ?_, rfl⟩
  simp only [get_execution_period_for_policy, hiter]
  exact firstUnsatisfiedTick_append lag edt t0 ts1 ts2 hfirst ht0

/-- Witness for `c5_execution_period_for_policy` at the concrete policy
with lag 50 and ticks at 1000 and 1100, evaluated at 1000 with effective
data time 970: the first tick requiring data after 970 is 1100. -/
theorem c5_witness :
    get_execution_period_for_policy policyC5 (some 970) 1000 = some ⟨1050, 1100⟩
    ∧ get_execution_period_for_policy policyC5 none 1000 = some ⟨1000, 1000⟩ :=
  ⟨(c5_execution_period_for_policy 50 1000 970 1100 [1000] []
        (fun t => [t, t + 100]) (by decide) (by decide) (by decide) (by decide)).2.1,
    (c5_execution_period_for_policy 50 1000 970 1100 [1000] []
        (fun t => [t, t + 100]) (by decide) (by decide) (by decide) (by decide)).1
      (some fun t => [t, t + 100])⟩

/-- C1: the acceptance predicate `should_reconcile` accepts a candidate
group only if every parent of every candidate is either already in the
to-reconcile set with identical partitioning and an identical partition
key, or is already reconciled per the record store, and at least one
unit of the group is not yet reconciled (so if any of these fails, the
whole group is rejected). -/
theorem c1_should_reconcile_only_if (env : ReconEnv)
    (ev bf unit acc : List AssetKeyPartitionKey)
    (h : should_reconcile env ev bf unit acc = true) :
    (∀ c ∈ unit, ∀ p ∈ env.parents_partitions c,
        (p ∈ acc ∧ env.have_same_partitioning p.asset_key c.asset_key = true
            ∧ p.partition_key = c.partition_key)
          ∨ env.is_reconciled p = true)
    ∧ ∃ c ∈ unit, env.is_reconciled c = false := by
  unfold should_reconcile at h
  split at h
  · exact Bool.noConfusion h
  · split at h
    · exact Bool.noConfusion h
    · rw [Bool.and_eq_true] at h
      obtain ⟨hall, hany⟩ := h
      constructor
      · intro c hc p hp
        rw [List.all_eq_true] at hall
        have hc' := hall c hc
        unfold parents_will_be_reconciled at hc'
        rw [List.all_eq_true] at hc'
        have hp' := hc' p hp
        rw [Bool.or_eq_true] at hp'
        cases hp' with
        | inl hl =>
          rw [Bool.and_eq_true, Bool.and_eq_true] at hl
          exact Or.inl ⟨of_decide_eq_true hl.1.1, hl.1.2, of_decide_eq_true hl.2⟩
        | inr hr => exact Or.inr hr
      · rw [List.any_eq_true] at hany
        obtain ⟨c, hc, hrec⟩ := hany
        exact ⟨c, hc, by rwa [Bool.not_eq_true'] at hrec⟩

/-- Witness for `c1_should_reconcile_only_if`: the asset `d` with the
single reconciled parent `p` is accepted, and indeed its parent is
reconciled while `d` itself is not. -/
theorem c1_witness :
    (∀ c ∈ [(⟨"d", none⟩ : AssetKeyPartitionKey)], ∀ p ∈ envC1.parents_partitions c,
        (p ∈ ([] : List AssetKeyPartitionKey)
            ∧ envC1.have_same_partitioning p.asset_key c.asset_key = true
            ∧ p.partition_key = c.partition_key)
          ∨ envC1.is_reconciled p = true)
    ∧ ∃ c ∈ [(⟨"d", none⟩ : AssetKeyPartitionKey)], envC1.is_reconciled c = false :=
  c1_should_reconcile_only_if envC1 [] [] [⟨"d", none⟩] [] (by decide)

/-- Membership in a set-insertion. -/
theorem mem_insertAP (v u : AssetKeyPartitionKey) (l : List AssetKeyPartitionKey) :
    v ∈ insertAP l u ↔ v ∈ l ∨ v = u := by
  unfold insertAP
  split
  · next hmem =>
    constructor
    · exact Or.inl
    · rintro (hv | rfl)
      · exact hv
      · exact hmem
  · simp

/-- An inserted element is a member. -/
theorem self_mem_insertAP (u : AssetKeyPartitionKey) (l : List AssetKeyPartitionKey) :
    u ∈ insertAP l u :=
  (mem_insertAP u u l).mpr (Or.inr rfl)

/-- C2, counterexample: in `envC2`, the run `r0` materialized partition
`a` of the partitioned parent and also planned the unpartitioned child,
yet the child is still returned as a stale candidate — the same-run
exclusion check is skipped because the child's partition key differs
from the parent's. -/
theorem c2_counterexample :
    (find_parent_materialized_asset_partitions envC2 none (fun _ => true)).1
        = [⟨"child", none⟩]
    ∧ latestRecordAP envC2.store ⟨"parent", some "a"⟩ none
        = some ⟨"parent", some "a", "r0", 5⟩
    ∧ envC2.is_asset_planned_for_run "r0" ⟨"child", none⟩ = true := by
  refine ⟨by decide, by decide, by decide⟩

/-- C2, amended: in the partitioned-parent scan, a child in the target
selection passing the `canReconcile` pre-check is subjected to the
same-run exclusion check only when its partition key equals the parent's
materialized partition key; when the partition keys differ, the child is
added without the same-run lookup. -/
theorem c2_amended (env : ReconEnv) (can : AssetKeyPartitionKey → Bool) (a : AssetKey)
    (pk : String) (after : Option ℤ) (child : AssetKeyPartitionKey)
    (res : List AssetKeyPartitionKey)
    (htgt : child.asset_key ∈ env.target_asset_keys) (hcan : can child = true) :
    (child.partition_key ≠ some pk →
        process_child_partitioned env can a pk after child res = insertAP res child)
    ∧ (∀ r, child.partition_key = some pk →
        latestRecordAP env.store ⟨a, some pk⟩ after = some r →
        (child ∈ process_child_partitioned env can a pk after child res
          ↔ (env.is_asset_planned_for_run r.run_id child = false ∨ child ∈ res))) := by
  have h1 : (decide (child.asset_key ∉ env.target_asset_keys)) = false := by
    simp [htgt]
  constructor
  · intro hne
    have h3 : (decide (some pk ≠ child.partition_key)) = true := by
      simp
      exact fun h => hne h.symm
    simp [process_child_partitioned, h1, hcan, h3]
  · intro r hpk hrec
    have h3 : (decide (some pk ≠ child.partition_key)) = false := by
      simp [hpk]
    simp only [process_child_partitioned, h1, Bool.false_eq_true, if_false, hcan,
      Bool.not_true, h3, hrec]
    cases hpl : env.is_asset_planned_for_run r.run_id child with
    | false => simp [self_mem_insertAP child res]
    | true => simp

/-- Witness for `c2_amended`: the unpartitioned child of `envC2` is
added directly (partition keys differ). -/
theorem c2_amended_witness :
    process_child_partitioned envC2 (fun _ => true) "parent" "a" none ⟨"child", none⟩ []
      = insertAP [] ⟨"child", none⟩ :=
  (c2_amended envC2 (fun _ => true) "parent" "a" none ⟨"child", none⟩ []
      (by decide) (by decide)).1 (by decide)

/-- Decoding a list of JSON strings recovers the strings. -/
theorem mapSome_str (l : List String) :
    mapSome
        (fun x =>
          match x with
          | Json.str s => some s
          | _ => none)
        (l.map Json.str)
      = some l := by
  induction l with
  | nil => rfl
  | cons s rest ih => simp [mapSome, ih]

/-- A partitions subset round-trips through its JSON encoding. -/
theorem deserialize_serialize_subset (pd : PartitionsDef) (sub : PartitionsSubset) :
    deserializeSubset pd (serializeSubset sub) = some sub := by
  simp [deserializeSubset, serializeSubset, mapSome_str]

/-- The per-asset partition subsets round-trip when every recorded asset
has a partitions definition in the graph. -/
theorem mapSome_parts (env : ReconEnv) (l : List (AssetKey × PartitionsSubset))
    (h : ∀ p ∈ l, (env.get_partitions_def p.1).isSome) :
    mapSome
        (fun (p : String × Json) =>
          (env.get_partitions_def p.1).bind fun pd =>
            (deserializeSubset pd p.2).bind fun sub => some (p.1, sub))
        (l.map fun p => (p.1, serializeSubset p.2))
      = some l := by
  induction l with
  | nil => rfl
  | cons p rest ih =>
    obtain ⟨pd, hpd⟩ := Option.isSome_iff_exists.mp (h p (List.mem_cons_self p rest))
    simp only [List.map_cons, mapSome, hpd, deserialize_serialize_subset,
      Option.some_bind]
    rw [ih fun q hq => h q (List.mem_cons_of_mem p hq)]

/-- C9: deserializing the string produced by `serialize` yields the
original cursor (for any cursor whose recorded partitioned roots have a
partitions definition in the graph), and an absent cursor is interpreted
as the empty cursor. -/
theorem c9_cursor_roundtrip (env : ReconEnv) (c : AssetReconciliationCursor)
    (h : ∀ p ∈ c.materialized_or_requested_root_partitions_by_asset_key,
        (env.get_partitions_def p.1).isSome) :
    AssetReconciliationCursor.from_serialized env c.serialize = some c
    ∧ cursor_from_context env none = some AssetReconciliationCursor.empty := by
  refine ⟨?_, rfl⟩
  obtain ⟨latest, keys, parts⟩ := c
  simp only [AssetReconciliationCursor.serialize] at *
  cases latest with
  | none =>
    simp [AssetReconciliationCursor.from_serialized, mapSome_str, mapSome_parts env parts h]
  | some i =>
    simp [AssetReconciliationCursor.from_serialized, mapSome_str, mapSome_parts env parts h]

/-- Witness for `c9_cursor_roundtrip` at a cursor with a watermark, two
recorded roots and recorded partitions of two assets. -/
theorem c9_witness :
    AssetReconciliationCursor.from_serialized envC9 cursorC9.serialize = some cursorC9
    ∧ cursor_from_context envC9 none = some AssetReconciliationCursor.empty :=
  c9_cursor_roundtrip envC9 cursorC9 (by decide)

/-- A unit whose every containing group is always rejected never enters
the closure's result. -/
theorem bfs_excluded (groupOf childrenOf : AssetKeyPartitionKey → List AssetKeyPartitionKey)
    (condition : List AssetKeyPartitionKey → List AssetKeyPartitionKey → Bool)
    (u : AssetKeyPartitionKey)
    (hu : ∀ v a, u ∈ groupOf v → condition (groupOf v) a = false) :
    ∀ fuel queue acc, u ∉ acc →
      u ∉ bfsFilter groupOf childrenOf condition fuel queue acc := by
  intro fuel
  induction fuel with
  | zero => intro queue acc hacc; simpa [bfsFilter] using hacc
  | succ n ih =>
    intro queue acc hacc
    cases queue with
    | nil => simpa [bfsFilter] using hacc
    | cons v rest =>
      simp only [bfsFilter]
      split
      · next hcond =>
        apply ih
        intro hmem
        rw [List.mem_append] at hmem
        cases hmem with
        | inl h => exact hacc h
        | inr h => rw [hu v acc h] at hcond; exact Bool.noConfusion hcond
      · exact ih rest acc hacc

/-- `should_reconcile` rejects every group containing a unit covered by
the freshness selection, by the backfill target subset, or outside the
target selection. -/
theorem should_reconcile_false_of_excluded (env : ReconEnv)
    (ev bf : List AssetKeyPartitionKey) (u : AssetKeyPartitionKey)
    (hu : u ∈ ev ∨ u ∈ bf ∨ u.asset_key ∉ env.target_asset_keys) :
    ∀ g a, u ∈ g → should_reconcile env ev bf g a = false := by
  intro g a hg
  unfold should_reconcile
  split
  · rfl
  · split
    · rfl
    · next h2 =>
      exfalso
      apply h2
      rw [List.any_eq_true]
      refine ⟨u, hg, ?_⟩
      rcases hu with h | h | h
      · simp [h]
      · simp [h]
      · simp [h]

/-- Membership in the union of the serialized backfill targets. -/
theorem backfillUnion_ok_mem (bs : List Backfill) (S : List AssetKeyPartitionKey)
    (hok : backfillUnion bs = .ok S) (u : AssetKeyPartitionKey) :
    u ∈ S ↔ ∃ b ∈ bs, ∃ t, b.serialized_asset_backfill_data = some t ∧ u ∈ t := by
  induction bs generalizing S with
  | nil =>
    injection hok with h
    simp [← h]
  | cons b rest ih =>
    unfold backfillUnion at hok
    cases hdata : b.serialized_asset_backfill_data with
    | none => rw [hdata] at hok; exact Except.noConfusion hok
    | some t =>
      rw [hdata] at hok
      cases hrest : backfillUnion rest with
      | error e => rw [hrest] at hok; exact Except.noConfusion hok
      | ok S' =>
        rw [hrest] at hok
        injection hok with h
        subst h
        rw [List.mem_append, ih S' hrest]
        constructor
        · rintro (h | ⟨b', hb', t', ht', hu'⟩)
          · exact ⟨b, List.mem_cons_self b rest, t, hdata, h⟩
          · exact ⟨b', List.mem_cons_of_mem b hb', t', ht', hu'⟩
        · rintro ⟨b', hb', t', ht', hu'⟩
          rcases List.mem_cons.mp hb' with rfl | hb''
          · rw [hdata] at ht'
            injection ht' with h'
            subst h'
            exact Or.inl hu'
          · exact Or.inr ⟨b', hb'', t', ht', hu'⟩

/-- Membership in the active-backfill target subset: exactly the units
targeted by some REQUESTED asset backfill. -/
theorem get_active_backfill_mem (env : ReconEnv) (S : List AssetKeyPartitionKey)
    (hok : get_active_backfill_target_asset_graph_subset env = .ok S)
    (u : AssetKeyPartitionKey) :
    u ∈ S ↔ ∃ b ∈ env.backfills, b.status = .REQUESTED ∧ b.is_asset_backfill = true
        ∧ ∃ t, b.serialized_asset_backfill_data = some t ∧ u ∈ t := by
  unfold get_active_backfill_target_asset_graph_subset at hok
  rw [backfillUnion_ok_mem _ S hok u]
  constructor
  · rintro ⟨b, hb, t, ht, hu⟩
    rw [List.mem_filter, Bool.and_eq_true, decide_eq_true_eq] at hb
    exact ⟨b, hb.1, hb.2.1, hb.2.2, t, ht, hu⟩
  · rintro ⟨b, hb, hst, hasset, t, ht, hu⟩
    refine ⟨b, ?_, t, ht, hu⟩
    rw [List.mem_filter, Bool.and_eq_true, decide_eq_true_eq]
    exact ⟨hb, hst, hasset⟩

/-- Unfolding of `determine_asset_partitions_to_reconcile` when the
backfill subset resolves. -/
theorem determine_eq (env : ReconEnv) (cursor : AssetReconciliationCursor)
    (ev : List AssetKeyPartitionKey) (fuel : ℕ) (S : List AssetKeyPartitionKey)
    (hS : get_active_backfill_target_asset_graph_subset env = .ok S) :
    determine_asset_partitions_to_reconcile env cursor ev fuel
      = .ok
          (bfsFilter env.groupOf env.children_of (should_reconcile env ev S) fuel
            ((find_never_materialized_or_requested_root_asset_partitions env
                  cursor).never_materialized_or_requested
              ++ (find_parent_materialized_asset_partitions env cursor.latest_storage_id
                  (can_reconcile_fn env)).1)
            [],
          (find_never_materialized_or_requested_root_asset_partitions env
              cursor).newly_materialized_root_asset_keys,
          (find_never_materialized_or_requested_root_asset_partitions env
              cursor).newly_materialized_root_partitions_by_asset_key,
          (find_parent_materialized_asset_partitions env cursor.latest_storage_id
              (can_reconcile_fn env)).2) := by
  unfold determine_asset_partitions_to_reconcile
  rw [hS]
  rfl

/-- C7: the active-backfill subset consists exactly of the units
targeted by some backfill in state REQUESTED; any unit in it is excluded
from the reconciliation decision set; once no REQUESTED backfill covers
the unit (e.g. all covering backfills are CANCELED, FAILED or
COMPLETED) the unit is no longer in the exclusion subset; and units in
the freshness scheduler's own selection or outside the target selection
are likewise excluded from the decision set. -/
theorem c7_backfill_exclusion (env : ReconEnv) (cursor : AssetReconciliationCursor)
    (ev : List AssetKeyPartitionKey) (fuel : ℕ) (u : AssetKeyPartitionKey)
    (S tr : List AssetKeyPartitionKey) (nk : List AssetKey)
    (np : List (AssetKey × List String)) (w : Option ℤ)
    (hS : get_active_backfill_target_asset_graph_subset env = .ok S)
    (hdet : determine_asset_partitions_to_reconcile env cursor ev fuel
        = .ok (tr, nk, np, w)) :
    (u ∈ S ↔ ∃ b ∈ env.backfills, b.status = .REQUESTED ∧ b.is_asset_backfill = true
        ∧ ∃ t, b.serialized_asset_backfill_data = some t ∧ u ∈ t)
    ∧ (u ∈ S → u ∉ tr)
    ∧ ((∀ b ∈ env.backfills,
          (∃ t, b.serialized_asset_backfill_data = some t ∧ u ∈ t) →
            b.status ≠ .REQUESTED) → u ∉ S)
    ∧ ((u ∈ ev ∨ u.asset_key ∉ env.target_asset_keys) → u ∉ tr) := by
  have htr : tr
      = bfsFilter env.groupOf env.children_of (should_reconcile env ev S) fuel
          ((find_never_materialized_or_requested_root_asset_partitions env
                cursor).never_materialized_or_requested
            ++ (find_parent_materialized_asset_partitions env cursor.latest_storage_id
                (can_reconcile_fn env)).1)
          [] := by
    rw [determine_eq env cursor ev fuel S hS] at hdet
    injection hdet with h
    rw [Prod.mk.injEq] at h
    exact h.1.symm
  refine ⟨get_active_backfill_mem env S hS u, ?_, ?_, ?_⟩
  · intro huS
    rw [htr]
    exact bfs_excluded env.groupOf env.children_of _ u
      (fun v a hv => should_reconcile_false_of_excluded env ev S u
        (Or.inr (Or.inl huS)) _ a hv)
      fuel _ [] (List.not_mem_nil u)
  · intro hno huS
    obtain ⟨b, hb, hst, -, t, ht, hu'⟩ := (get_active_backfill_mem env S hS u).mp huS
    exact hno b hb ⟨t, ht, hu'⟩ hst
  · intro hex
    rw [htr]
    refine bfs_excluded env.groupOf env.children_of _ u
      (fun v a hv => should_reconcile_false_of_excluded env ev S u ?_ _ a hv)
      fuel _ [] (List.not_mem_nil u)
    rcases hex with h | h
    · exact Or.inl h
    · exact Or.inr (Or.inr h)

/-- Witness for `c7_backfill_exclusion`: the unit `x`, targeted by the
REQUESTED backfill of `envC7`, is in the exclusion subset and not in the
(empty) decision set. -/
theorem c7_witness :
    (⟨"x", none⟩ : AssetKeyPartitionKey) ∉ ([] : List AssetKeyPartitionKey) :=
  (c7_backfill_exclusion envC7 .empty [] 3 ⟨"x", none⟩ [⟨"x", none⟩] [] [] [] none
      (by decide) rfl).2.1 (by decide)

/-! ### Record-store lemmas -/

/-- `laterRecord` never yields `none`. -/
theorem laterRecord_ne_none (acc : Option MatRecord) (r : MatRecord) :
    laterRecord acc r ≠ none := by
  cases acc with
  | none => simp [laterRecord]
  | some m =>
    simp only [laterRecord]
    split <;> simp

/-- The record fold yields `none` only from an empty list. -/
theorem foldl_laterRecord_none (l : List MatRecord) :
    ∀ acc : Option MatRecord, l.foldl laterRecord acc = none ↔ acc = none ∧ l = [] := by
  induction l with
  | nil => intro acc; simp
  | cons r l' ih =>
    intro acc
    simp only [List.foldl]
    rw [ih]
    simp [laterRecord_ne_none acc r]

/-- Case analysis of `laterRecord`. -/
theorem laterRecord_cases (acc : Option MatRecord) (r : MatRecord) :
    (laterRecord acc r = some r ∧ ∀ a, acc = some a → a.storage_id ≤ r.storage_id)
    ∨ (∃ a, acc = some a ∧ laterRecord acc r = some a ∧ r.storage_id ≤ a.storage_id) := by
  cases acc with
  | none => exact Or.inl ⟨rfl, fun a ha => Option.noConfusion ha⟩
  | some m =>
    by_cases hlt : m.storage_id < r.storage_id
    · refine Or.inl ⟨by simp only [laterRecord]; rw [if_pos hlt], fun a ha => ?_⟩
      injection ha with ha'
      rw [← ha']
      exact le_of_lt hlt
    · exact Or.inr ⟨m, rfl, by simp only [laterRecord]; rw [if_neg hlt], not_lt.mp hlt⟩

/-- The record fold yields a maximal element. -/
theorem foldl_laterRecord_spec (l : List MatRecord) :
    ∀ (acc : Option MatRecord) (m : MatRecord), l.foldl laterRecord acc = some m →
      (acc = some m ∨ m ∈ l) ∧ (∀ r ∈ l, r.storage_id ≤ m.storage_id)
        ∧ (∀ a, acc = some a → a.storage_id ≤ m.storage_id) := by
  induction l with
  | nil =>
    intro acc m h
    simp only [List.foldl] at h
    refine ⟨Or.inl h, by simp, fun a ha => ?_⟩
    rw [h] at ha
    injection ha with ha'
    rw [ha']
  | cons r l' ih =>
    intro acc m h
    simp only [List.foldl] at h
    obtain ⟨hmem, hbound, hacc⟩ := ih (laterRecord acc r) m h
    rcases laterRecord_cases acc r with ⟨hlr, hle⟩ | ⟨a0, hacc0, hlr, hle⟩
    · refine ⟨?_, ?_, ?_⟩
      · rcases hmem with hl | hr'
        · rw [hlr] at hl
          injection hl with hl'
          exact Or.inr (hl' ▸ List.mem_cons_self r l')
        · exact Or.inr (List.mem_cons_of_mem r hr')
      · intro r' hr'
        rcases List.mem_cons.mp hr' with rfl | hmem'
        · exact hacc r' hlr
        · exact hbound r' hmem'
      · intro a ha
        exact le_trans (hle a ha) (hacc r hlr)
    · refine ⟨?_, ?_, ?_⟩
      · rcases hmem with hl | hr'
        · rw [hlr] at hl
          injection hl with hl'
          exact Or.inl (hl' ▸ hacc0)
        · exact Or.inr (List.mem_cons_of_mem r hr')
      · intro r' hr'
        rcases List.mem_cons.mp hr' with rfl | hmem'
        · exact le_trans hle (hacc a0 hlr)
        · exact hbound r' hmem'
      · intro a ha
        rw [hacc0] at ha
        injection ha with ha'
        rw [← ha']
        exact hacc a0 hlr

/-- `latestRecordAsset` is absent iff no record of the asset passes the
cursor filter. -/
theorem latestRecordAsset_none_iff (store : List MatRecord) (k : AssetKey)
    (after : Option ℤ) :
    latestRecordAsset store k after = none
      ↔ ∀ r ∈ store, r.asset_key = k → afterFilter after r.storage_id = false := by
  unfold latestRecordAsset
  rw [foldl_laterRecord_none]
  simp only [true_and, List.filter_eq_nil_iff, Bool.and_eq_true, decide_eq_true_eq, not_and]
  constructor
  · intro h r hr hk
    have := h r hr
    cases haf : afterFilter after r.storage_id with
    | false => rfl
    | true => exact absurd haf (this hk)
  · intro h r hr hk
    rw [h r hr hk]
    simp

/-- Specification of a present `latestRecordAsset`. -/
theorem latestRecordAsset_some_spec (store : List MatRecord) (k : AssetKey)
    (after : Option ℤ) (m : MatRecord) (h : latestRecordAsset store k after = some m) :
    m ∈ store ∧ m.asset_key = k ∧ afterFilter after m.storage_id = true
      ∧ ∀ r ∈ store, r.asset_key = k → afterFilter after r.storage_id = true →
          r.storage_id ≤ m.storage_id := by
  unfold latestRecordAsset at h
  obtain ⟨hmem, hbound, -⟩ := foldl_laterRecord_spec _ none m h
  have hm : m ∈ List.filter
      (fun r => decide (r.asset_key = k) && afterFilter after r.storage_id) store := by
    rcases hmem with hl | hr
    · exact Option.noConfusion hl
    · exact hr
  rw [List.mem_filter, Bool.and_eq_true, decide_eq_true_eq] at hm
  refine ⟨hm.1, hm.2.1, hm.2.2, fun r hr hk haf => ?_⟩
  exact hbound r (List.mem_filter.mpr ⟨hr, by rw [Bool.and_eq_true, decide_eq_true_eq]; exact ⟨hk, haf⟩⟩)

/-- No partition counts as materialized when no record of the asset
passes the cursor filter. -/
theorem materializedPartitionsSince_eq_nil (store : List MatRecord) (k : AssetKey)
    (after : Option ℤ)
    (h : ∀ r ∈ store, r.asset_key = k → afterFilter after r.storage_id = false) :
    materializedPartitionsSince store k after = [] := by
  unfold materializedPartitionsSince
  have hfil : List.filter
      (fun r => decide (r.asset_key = k) && afterFilter after r.storage_id) store = [] := by
    rw [List.filter_eq_nil_iff]
    intro r hr hp
    rw [Bool.and_eq_true, decide_eq_true_eq] at hp
    rw [h r hr hp.1] at hp
    exact Bool.noConfusion hp.2
  rw [hfil]
  rfl

/-! ### Propagation-detector lemmas -/

/-- A parent with no record above the cursor leaves the state unchanged. -/
theorem parentKeyStep_skip (env : ReconEnv) (after : Option ℤ)
    (can : AssetKeyPartitionKey → Bool) (st : List AssetKeyPartitionKey × Option ℤ)
    (k : AssetKey) (h : latestRecordAsset env.store k after = none) :
    parentKeyStep env after can st k = st := by
  unfold parentKeyStep
  cases hsrc : env.is_source k with
  | true => simp
  | false => simp [h]

/-- When every targeted parent has no record above the cursor, the
propagation detector returns no candidates and the unchanged cursor. -/
theorem findParent_fold_skip (env : ReconEnv) (after : Option ℤ)
    (can : AssetKeyPartitionKey → Bool) :
    ∀ (ks : List AssetKey) (st : List AssetKeyPartitionKey × Option ℤ),
      (∀ k ∈ ks, env.is_source k = false → latestRecordAsset env.store k after = none) →
      ks.foldl (parentKeyStep env after can) st = st := by
  intro ks
  induction ks with
  | nil => intro st _; rfl
  | cons k ks' ih =>
    intro st h
    simp only [List.foldl]
    have hstep : parentKeyStep env after can st k = st := by
      cases hsrc : env.is_source k with
      | true => unfold parentKeyStep; simp [hsrc]
      | false => exact parentKeyStep_skip env after can st k (h k (List.mem_cons_self k ks') hsrc)
    rw [hstep]
    exact ih st fun k' hk' => h k' (List.mem_cons_of_mem k hk')

/-- The watermark component of one `parentKeyStep`: it never decreases,
and it bounds every record of the processed (non-source) parent. -/
theorem parentKeyStep_w (env : ReconEnv) (after : Option ℤ)
    (can : AssetKeyPartitionKey → Bool) (st : List AssetKeyPartitionKey × Option ℤ)
    (k : AssetKey) :
    (∀ a, st.2 = some a → ∃ b, (parentKeyStep env after can st k).2 = some b ∧ a ≤ b)
    ∧ (env.is_source k = false →
        (∀ a, after = some a → ∃ b2, st.2 = some b2 ∧ a ≤ b2) →
        ∀ r ∈ env.store, r.asset_key = k →
          ∃ b, (parentKeyStep env after can st k).2 = some b ∧ r.storage_id ≤ b) := by
  cases hsrc : env.is_source k with
  | true =>
    refine ⟨?_, ?_⟩
    · intro a ha
      unfold parentKeyStep
      rw [hsrc]
      exact ⟨a, by simpa using ha, le_refl a⟩
    · intro hfalse
      exact Bool.noConfusion hfalse
  | false =>
    cases hlatest : latestRecordAsset env.store k after with
    | none =>
      have hstep := parentKeyStep_skip env after can st k hlatest
      refine ⟨fun a ha => ⟨a, by rw [hstep]; exact ha, le_refl a⟩, ?_⟩
      intro _ hst r hr hk
      rw [latestRecordAsset_none_iff] at hlatest
      have haf := hlatest r hr hk
      have hafter : ∃ a, after = some a := by
        cases after with
        | none => simp [afterFilter] at haf
        | some a => exact ⟨a, rfl⟩
      obtain ⟨a, hafter⟩ := hafter
      rw [hafter] at haf
      simp only [afterFilter, decide_eq_false_iff_not, not_lt] at haf
      obtain ⟨b2, hb2, hab2⟩ := hst a hafter
      exact ⟨b2, by rw [hstep]; exact hb2, le_trans haf hab2⟩
    | some m =>
      have hw : (parentKeyStep env after can st k).2
          = match st.2 with
            | none => some m.storage_id
            | some a => if m.storage_id > a then some m.storage_id else some a := by
        unfold parentKeyStep
        rw [hsrc, hlatest]
        rfl
      have hex : ∃ b', (parentKeyStep env after can st k).2 = some b'
          ∧ m.storage_id ≤ b' ∧ ∀ a, st.2 = some a → a ≤ b' := by
        cases hst2 : st.2 with
        | none =>
          refine ⟨m.storage_id, ?_, le_refl _, fun a ha => ?_⟩
          · rw [hw, hst2]
          · exact Option.noConfusion ha
        | some a0 =>
          by_cases hgt : m.storage_id > a0
          · refine ⟨m.storage_id, ?_, le_refl _, fun a ha => ?_⟩
            · rw [hw, hst2]
              show (if m.storage_id > a0 then some m.storage_id else some a0)
                = some m.storage_id
              rw [if_pos hgt]
            · injection ha with ha'
              subst ha'
              exact le_of_lt hgt
          · refine ⟨a0, ?_, not_lt.mp hgt, fun a ha => ?_⟩
            · rw [hw, hst2]
              show (if m.storage_id > a0 then some m.storage_id else some a0) = some a0
              rw [if_neg hgt]
            · injection ha with ha'
              subst ha'
              exact le_refl a0
      obtain ⟨b', hb', hmb', hstb'⟩ := hex
      refine ⟨fun a ha => ⟨b', hb', hstb' a ha⟩, ?_⟩
      intro _ hst r hr hk
      obtain ⟨-, -, -, hmax⟩ := latestRecordAsset_some_spec env.store k after m hlatest
      cases haf : afterFilter after r.storage_id with
      | true => exact ⟨b', hb', le_trans (hmax r hr hk haf) hmb'⟩
      | false =>
        have hafter : ∃ a, after = some a := by
          cases after with
          | none => simp [afterFilter] at haf
          | some a => exact ⟨a, rfl⟩
        obtain ⟨a, hafter⟩ := hafter
        rw [hafter] at haf
        simp only [afterFilter, decide_eq_false_iff_not, not_lt] at haf
        obtain ⟨b2, hb2, hab2⟩ := hst a hafter
        exact ⟨b', hb', le_trans haf (le_trans hab2 (hstb' b2 hb2))⟩

/-- The watermark after a processed parent with a record. -/
theorem parentKeyStep_w_eq (env : ReconEnv) (after : Option ℤ)
    (can : AssetKeyPartitionKey → Bool) (st : List AssetKeyPartitionKey × Option ℤ)
    (k : AssetKey) (m : MatRecord) (hsrc : env.is_source k = false)
    (hlatest : latestRecordAsset env.store k after = some m) :
    (parentKeyStep env after can st k).2
      = match st.2 with
        | none => some m.storage_id
        | some a => if m.storage_id > a then some m.storage_id else some a := by
  unfold parentKeyStep
  rw [hsrc, hlatest]
  rfl

/-- The propagation fold only raises the watermark, the initial cursor
stays below it, and it bounds every record of every scanned non-source
parent. -/
theorem findParent_fold_bound (env : ReconEnv) (after : Option ℤ)
    (can : AssetKeyPartitionKey → Bool) :
    ∀ (ks : List AssetKey) (st : List AssetKeyPartitionKey × Option ℤ),
      (∀ a, after = some a → ∃ b, st.2 = some b ∧ a ≤ b) →
      ((∀ a, st.2 = some a →
          ∃ b, (ks.foldl (parentKeyStep env after can) st).2 = some b ∧ a ≤ b)
        ∧ (∀ a, after = some a →
            ∃ b, (ks.foldl (parentKeyStep env after can) st).2 = some b ∧ a ≤ b)
        ∧ (∀ k ∈ ks, env.is_source k = false → ∀ r ∈ env.store, r.asset_key = k →
            ∃ b, (ks.foldl (parentKeyStep env after can) st).2 = some b
              ∧ r.storage_id ≤ b)) := by
  intro ks
  induction ks with
  | nil =>
    intro st hst
    exact ⟨fun a ha => ⟨a, ha, le_refl a⟩, hst, by simp⟩
  | cons k ks' ih =>
    intro st hst
    simp only [List.foldl]
    obtain ⟨hw1, hw2⟩ := parentKeyStep_w env after can st k
    have hst' : ∀ a, after = some a →
        ∃ b, (parentKeyStep env after can st k).2 = some b ∧ a ≤ b := by
      intro a ha
      obtain ⟨b2, hb2, hab2⟩ := hst a ha
      obtain ⟨b, hb, hbb⟩ := hw1 b2 hb2
      exact ⟨b, hb, le_trans hab2 hbb⟩
    obtain ⟨ih1, ih2, ih3⟩ := ih (parentKeyStep env after can st k) hst'
    refine ⟨?_, ih2, ?_⟩
    · intro a ha
      obtain ⟨b, hb, hab⟩ := hw1 a ha
      obtain ⟨b', hb', hbb'⟩ := ih1 b hb
      exact ⟨b', hb', le_trans hab hbb'⟩
    · intro k' hk' hsrc r hr hkey
      rcases List.mem_cons.mp hk' with rfl | hmem
      · obtain ⟨b, hb, hrb⟩ := hw2 hsrc hst r hr hkey
        obtain ⟨b', hb', hbb'⟩ := ih1 b hb
        exact ⟨b', hb', le_trans hrb hbb'⟩
      · exact ih3 k' hmem hsrc r hr hkey

/-- One step keeps the watermark positive (for a store of positive
storage ids). -/
theorem parentKeyStep_pos (env : ReconEnv) (after : Option ℤ)
    (can : AssetKeyPartitionKey → Bool) (st : List AssetKeyPartitionKey × Option ℤ)
    (k : AssetKey) (hpos_store : ∀ r ∈ env.store, 0 < r.storage_id)
    (hpos : ∀ a, st.2 = some a → 0 < a) :
    ∀ a, (parentKeyStep env after can st k).2 = some a → 0 < a := by
  cases hsrc : env.is_source k with
  | true =>
    intro a ha
    unfold parentKeyStep at ha
    rw [hsrc] at ha
    exact hpos a ha
  | false =>
    cases hlatest : latestRecordAsset env.store k after with
    | none =>
      rw [parentKeyStep_skip env after can st k hlatest]
      exact hpos
    | some m =>
      have hmpos : 0 < m.storage_id :=
        hpos_store m (latestRecordAsset_some_spec env.store k after m hlatest).1
      intro a ha
      rw [parentKeyStep_w_eq env after can st k m hsrc hlatest] at ha
      cases hst2 : st.2 with
      | none =>
        rw [hst2] at ha
        injection ha with ha'
        rw [← ha']
        exact hmpos
      | some a0 =>
        rw [hst2] at ha
        have ha' : (if m.storage_id > a0 then some m.storage_id else some a0) = some a :=
          ha
        by_cases hgt : m.storage_id > a0
        · rw [if_pos hgt] at ha'
          injection ha' with ha''
          rw [← ha'']
          exact hmpos
        · rw [if_neg hgt] at ha'
          injection ha' with ha''
          rw [← ha'']
          exact hpos a0 hst2

/-- The propagation fold keeps the watermark positive. -/
theorem findParent_fold_pos (env : ReconEnv) (after : Option ℤ)
    (can : AssetKeyPartitionKey → Bool)
    (hpos_store : ∀ r ∈ env.store, 0 < r.storage_id) :
    ∀ (ks : List AssetKey) (st : List AssetKeyPartitionKey × Option ℤ),
      (∀ a, st.2 = some a → 0 < a) →
      ∀ a, (ks.foldl (parentKeyStep env after can) st).2 = some a → 0 < a := by
  intro ks
  induction ks with
  | nil => intro st hpos; exact hpos
  | cons k ks' ih =>
    intro st hpos
    simp only [List.foldl]
    exact ih (parentKeyStep env after can st k)
      (parentKeyStep_pos env after can st k hpos_store hpos)

/-- The propagation detector with no scannable record returns no
candidates and the unchanged watermark. -/
theorem find_parent_skip (env : ReconEnv) (after : Option ℤ)
    (can2 : AssetKeyPartitionKey → Bool)
    (h : ∀ k ∈ env.target_parent_asset_keys, env.is_source k = false →
        latestRecordAsset env.store k after = none) :
    find_parent_materialized_asset_partitions env after can2 = ([], after) := by
  unfold find_parent_materialized_asset_partitions
  exact findParent_fold_skip env after can2 _ _ h

/-- A second propagation scan from the updated watermark finds nothing:
the updated watermark (new `or` old, as stored by `with_updates`)
bounds every record of every targeted parent, so every
`get_latest_materialization_record` lookup above it is empty. -/
theorem stale_second_tick_empty (env : ReconEnv)
    (can can2 : AssetKeyPartitionKey → Bool) (c0L : Option ℤ)
    (hpos_store : ∀ r ∈ env.store, 0 < r.storage_id)
    (hpos0 : ∀ a, c0L = some a → 0 < a) :
    find_parent_materialized_asset_partitions env
        (orId (find_parent_materialized_asset_partitions env c0L can).2 c0L) can2
      = ([], orId (find_parent_materialized_asset_partitions env c0L can).2 c0L) := by
  have hbound := (findParent_fold_bound env c0L can env.target_parent_asset_keys
    ([], c0L) (fun a ha => ⟨a, ha, le_refl a⟩)).2.2
  have hpos1 : ∀ a, (find_parent_materialized_asset_partitions env c0L can).2 = some a →
      0 < a :=
    findParent_fold_pos env c0L can hpos_store env.target_parent_asset_keys ([], c0L) hpos0
  apply find_parent_skip
  intro k hk hsrc
  rw [latestRecordAsset_none_iff]
  intro r hr hkey
  obtain ⟨b, hw1b, hrb⟩ := hbound k hk hsrc r hr hkey
  have hw1b' : (find_parent_materialized_asset_partitions env c0L can).2 = some b := hw1b
  have hbpos : 0 < b := hpos1 b hw1b'
  have horid : orId (find_parent_materialized_asset_partitions env c0L can).2 c0L
      = some b := by
    unfold orId
    rw [if_pos (by rw [hw1b']; simp [truthyId]; omega)]
    exact hw1b'
  rw [horid]
  simp only [afterFilter, decide_eq_false_iff_not, not_lt]
  exact hrb

/-! ### Cursor-update content lemmas -/

theorem lookupKey_setKey_self {α : Type} (m : List (AssetKey × α)) (k : AssetKey) (v : α) :
    lookupKey (setKey m k v) k = some v := by
  simp [setKey, lookupKey]

theorem lookupKey_filter_ne {α : Type} (k k' : AssetKey) (h : k' ≠ k) :
    ∀ m : List (AssetKey × α),
      lookupKey (m.filter fun p => decide (p.1 ≠ k)) k' = lookupKey m k' := by
  intro m
  induction m with
  | nil => rfl
  | cons p rest ih =>
    by_cases hp : p.1 = k
    · have : (decide (p.1 ≠ k)) = false := by simp [hp]
      rw [List.filter_cons, this]
      simp only [Bool.false_eq_true, if_false]
      rw [ih]
      have hne : ¬ p.1 = k' := by rw [hp]; exact fun hh => h hh.symm
      cases p with
      | mk a b =>
        simp only [lookupKey]
        rw [if_neg (by simpa using hne)]
    · have : (decide (p.1 ≠ k)) = true := by simp [hp]
      rw [List.filter_cons, this]
      simp only [if_true]
      cases p with
      | mk a b =>
        simp only [lookupKey]
        by_cases ha : a = k'
        · rw [if_pos ha, if_pos ha]
        · rw [if_neg ha, if_neg ha]
          exact ih

theorem lookupKey_setKey_other {α : Type} (m : List (AssetKey × α)) (k k' : AssetKey)
    (v : α) (h : k' ≠ k) :
    lookupKey (setKey m k v) k' = lookupKey m k' := by
  simp only [setKey, lookupKey]
  rw [if_neg fun hh => h hh.symm]
  exact lookupKey_filter_ne k k' h m

theorem mem_map_fst_of_lookupKey {α : Type} :
    ∀ (m : List (AssetKey × α)) (k : AssetKey) (v : α),
      lookupKey m k = some v → k ∈ m.map Prod.fst := by
  intro m
  induction m with
  | nil => intro k v h; exact Option.noConfusion h
  | cons p rest ih =>
    intro k v h
    simp only [lookupKey] at h
    by_cases hp : p.1 = k
    · simp [hp]
    · rw [if_neg hp] at h
      simp only [List.map_cons, List.mem_cons]
      exact Or.inr (ih k v h)

theorem mem_getD_elim {α : Type} (o : Option (List α)) (p : α) (h : p ∈ o.getD []) :
    ∃ v, o = some v ∧ p ∈ v := by
  cases o with
  | none => simp at h
  | some v => exact ⟨v, rfl, h⟩

/-- Lookup after the per-key `setKey` fold of `updatedRootPartitions`. -/
theorem lookupKey_foldl_setKeyURP (c : AssetReconciliationCursor)
    (np rp : List (AssetKey × List String)) :
    ∀ (us : List AssetKey) (m : List (AssetKey × PartitionsSubset)) (k : AssetKey),
      (k ∉ us →
        lookupKey
            (us.foldl
              (fun m asset_key =>
                setKey m asset_key
                  ((lookupKey c.materialized_or_requested_root_partitions_by_asset_key
                        asset_key).getD []
                    ++ (lookupKey np asset_key).getD []
                    ++ (lookupKey rp asset_key).getD []))
              m)
            k
          = lookupKey m k)
      ∧ (k ∈ us →
        lookupKey
            (us.foldl
              (fun m asset_key =>
                setKey m asset_key
                  ((lookupKey c.materialized_or_requested_root_partitions_by_asset_key
                        asset_key).getD []
                    ++ (lookupKey np asset_key).getD []
                    ++ (lookupKey rp asset_key).getD []))
              m)
            k
          = some
              ((lookupKey c.materialized_or_requested_root_partitions_by_asset_key
                    k).getD []
                ++ (lookupKey np k).getD [] ++ (lookupKey rp k).getD [])) := by
  intro us
  induction us with
  | nil =>
    intro m k
    exact ⟨fun _ => rfl, fun hk => absurd hk (List.not_mem_nil k)⟩
  | cons u us' ih =>
    intro m k
    simp only [List.foldl]
    constructor
    · intro hk
      rw [List.mem_cons, not_or] at hk
      rw [(ih _ k).1 hk.2]
      exact lookupKey_setKey_other m u k _ hk.1
    · intro hk
      by_cases hk' : k ∈ us'
      · exact (ih _ k).2 hk'
      · have hku : k = u := by
          rcases List.mem_cons.mp hk with h | h
          · exact h
          · exact absurd h hk'
        subst hku
        rw [(ih _ k).1 hk']
        exact lookupKey_setKey_self m k _

/-- Lookup in the merged root partitions. -/
theorem lookupKey_updatedRootPartitions (c : AssetReconciliationCursor)
    (np rp : List (AssetKey × List String)) (k : AssetKey) :
    (k ∉ (np.map Prod.fst ++ rp.map Prod.fst).dedup →
      lookupKey (updatedRootPartitions c np rp) k
        = lookupKey c.materialized_or_requested_root_partitions_by_asset_key k)
    ∧ (k ∈ (np.map Prod.fst ++ rp.map Prod.fst).dedup →
      lookupKey (updatedRootPartitions c np rp) k
        = some
            ((lookupKey c.materialized_or_requested_root_partitions_by_asset_key
                  k).getD []
              ++ (lookupKey np k).getD [] ++ (lookupKey rp k).getD [])) :=
  lookupKey_foldl_setKeyURP c np rp _ _ k

/-- One requested-roots step only grows both accumulators. -/
theorem requestedStep_mono (env : ReconEnv) (pk : Option String)
    (acc : List (AssetKey × List String) × List AssetKey) (k : AssetKey) :
    (∀ k', k' ∈ acc.2 → k' ∈ (requestedStep env pk acc k).2)
    ∧ (∀ k' p, p ∈ (lookupKey acc.1 k').getD [] →
        p ∈ (lookupKey (requestedStep env pk acc k).1 k').getD []) := by
  unfold requestedStep
  split
  · exact ⟨fun k' h => h, fun k' p h => h⟩
  · split
    · refine ⟨fun k' h => h, fun k' p h => ?_⟩
      by_cases hk' : k' = k
      · subst hk'
        rw [lookupKey_setKey_self]
        simp only [Option.getD_some]
        exact List.mem_append_left _ h
      · rw [lookupKey_setKey_other _ _ _ _ hk']
        exact h
    · exact ⟨fun k' h => List.mem_append_left _ h, fun k' p h => h⟩

/-- The inner (per-request) fold only grows both accumulators. -/
theorem requestedFold_inner_mono (env : ReconEnv) (pk : Option String) :
    ∀ (sel : List AssetKey) (acc : List (AssetKey × List String) × List AssetKey),
      (∀ k', k' ∈ acc.2 → k' ∈ (sel.foldl (requestedStep env pk) acc).2)
      ∧ (∀ k' p, p ∈ (lookupKey acc.1 k').getD [] →
          p ∈ (lookupKey (sel.foldl (requestedStep env pk) acc).1 k').getD []) := by
  intro sel
  induction sel with
  | nil => intro acc; exact ⟨fun k' h => h, fun k' p h => h⟩
  | cons u sel' ih =>
    intro acc
    simp only [List.foldl]
    obtain ⟨hs2, hs1⟩ := requestedStep_mono env pk acc u
    obtain ⟨ih2, ih1⟩ := ih (requestedStep env pk acc u)
    exact ⟨fun k' h => ih2 k' (hs2 k' h), fun k' p h => ih1 k' p (hs1 k' p h)⟩

/-- A root key of a run request is recorded by the inner fold. -/
theorem requestedFold_inner_adds (env : ReconEnv) (pk : Option String) :
    ∀ (sel : List AssetKey) (acc : List (AssetKey × List String) × List AssetKey)
      (k : AssetKey), k ∈ sel → env.has_non_source_parents k = false →
      (truthyStr pk = false → k ∈ (sel.foldl (requestedStep env pk) acc).2)
      ∧ (∀ p, pk = some p → p ≠ "" →
          p ∈ (lookupKey ((sel.foldl (requestedStep env pk) acc).1) k).getD []) := by
  intro sel
  induction sel with
  | nil => intro acc k hk; exact absurd hk (List.not_mem_nil k)
  | cons u sel' ih =>
    intro acc k hk hnsp
    simp only [List.foldl]
    by_cases hk' : k ∈ sel'
    · exact ih (requestedStep env pk acc u) k hk' hnsp
    · have hku : k = u := by
        rcases List.mem_cons.mp hk with h | h
        · exact h
        · exact absurd h hk'
      subst hku
      obtain ⟨hm2, hm1⟩ := requestedFold_inner_mono env pk sel' (requestedStep env pk acc k)
      constructor
      · intro htr
        apply hm2
        unfold requestedStep
        rw [hnsp]
        simp only [Bool.false_eq_true, if_false]
        rw [htr]
        simp only [Bool.false_eq_true, if_false]
        exact List.mem_append_right _ (List.mem_singleton.mpr rfl)
      · intro p hp hpne
        apply hm1
        unfold requestedStep
        rw [hnsp]
        simp only [Bool.false_eq_true, if_false]
        have htr : truthyStr pk = true := by
          rw [hp]
          simp [truthyStr, hpne]
        rw [htr]
        simp only [if_true]
        rw [lookupKey_setKey_self]
        simp only [Option.getD_some]
        refine List.mem_append_right _ ?_
        rw [hp]
        simp

/-- The outer fold (over all run requests) only grows both accumulators. -/
theorem requestedFold_outer_mono (env : ReconEnv) :
    ∀ (rrs : List RunRequest) (acc : List (AssetKey × List String) × List AssetKey),
      (∀ k', k' ∈ acc.2 →
        k' ∈ (rrs.foldl
            (fun acc rr => rr.asset_selection.foldl (requestedStep env rr.partition_key) acc)
            acc).2)
      ∧ (∀ k' p, p ∈ (lookupKey acc.1 k').getD [] →
          p ∈ (lookupKey (rrs.foldl
              (fun acc rr =>
                rr.asset_selection.foldl (requestedStep env rr.partition_key) acc)
              acc).1 k').getD []) := by
  intro rrs
  induction rrs with
  | nil => intro acc; exact ⟨fun k' h => h, fun k' p h => h⟩
  | cons rr rrs' ih =>
    intro acc
    simp only [List.foldl]
    obtain ⟨hi2, hi1⟩ := requestedFold_inner_mono env rr.partition_key rr.asset_selection acc
    obtain ⟨ih2, ih1⟩ :=
      ih (rr.asset_selection.foldl (requestedStep env rr.partition_key) acc)
    exact ⟨fun k' h => ih2 k' (hi2 k' h), fun k' p h => ih1 k' p (hi1 k' p h)⟩

/-- Every root key of every run request is recorded by `requestedFold`
(as an unpartitioned root or under its partition key). -/
theorem requestedFold_adds (env : ReconEnv) (rrs : List RunRequest) :
    ∀ rr ∈ rrs, ∀ k ∈ rr.asset_selection, env.has_non_source_parents k = false →
      (truthyStr rr.partition_key = false → k ∈ (requestedFold env rrs).2)
      ∧ (∀ p, rr.partition_key = some p → p ≠ "" →
          p ∈ (lookupKey (requestedFold env rrs).1 k).getD []) := by
  have hgen : ∀ (l : List RunRequest) (acc : List (AssetKey × List String) × List AssetKey),
      ∀ rr ∈ l, ∀ k ∈ rr.asset_selection, env.has_non_source_parents k = false →
      (truthyStr rr.partition_key = false →
        k ∈ (l.foldl
            (fun acc rr => rr.asset_selection.foldl (requestedStep env rr.partition_key) acc)
            acc).2)
      ∧ (∀ p, rr.partition_key = some p → p ≠ "" →
          p ∈ (lookupKey (l.foldl
              (fun acc rr =>
                rr.asset_selection.foldl (requestedStep env rr.partition_key) acc)
              acc).1 k).getD []) := by
    intro l
    induction l with
    | nil => intro acc rr hrr; exact absurd hrr (List.not_mem_nil rr)
    | cons rr0 l' ih =>
      intro acc rr hrr k hk hnsp
      simp only [List.foldl]
      rcases List.mem_cons.mp hrr with rfl | hmem
      · obtain ⟨ha2, ha1⟩ :=
          requestedFold_inner_adds env rr.partition_key rr.asset_selection acc k hk hnsp
        obtain ⟨hm2, hm1⟩ := requestedFold_outer_mono env l'
          (rr.asset_selection.foldl (requestedStep env rr.partition_key) acc)
        exact ⟨fun htr => hm2 k (ha2 htr), fun p hp hpne => hm1 k p (ha1 p hp hpne)⟩
      · exact ih (rr0.asset_selection.foldl (requestedStep env rr0.partition_key) acc)
          rr hmem k hk hnsp
  exact hgen rrs ([], [])

/-- The recorded sets of every successful `with_updates`. -/
theorem with_updates_ok_eq (c : AssetReconciliationCursor) (env : ReconEnv)
    (L : Option ℤ) (rr : List RunRequest) (nk : List AssetKey)
    (np : List (AssetKey × List String)) (c' : AssetReconciliationCursor)
    (h : c.with_updates env L rr nk np = .ok c') :
    c'.materialized_or_requested_root_asset_keys
        = c.materialized_or_requested_root_asset_keys ++ nk ++ (requestedFold env rr).2
    ∧ c'.materialized_or_requested_root_partitions_by_asset_key
        = updatedRootPartitions c np (requestedFold env rr).1 := by
  unfold AssetReconciliationCursor.with_updates at h
  split at h
  · split at h
    · injection h with h'
      rw [← h']
      exact ⟨rfl, rfl⟩
    · exact Except.noConfusion h
  · injection h with h'
    rw [← h']
    exact ⟨rfl, rfl⟩

/-- Content of every successful `with_updates`: previously recorded
roots stay recorded, newly materialized roots are recorded, and every
root key of every run request is recorded — as an unpartitioned root
when the request has no (truthy) partition key, and under its partition
key otherwise. -/
theorem with_updates_ok_content (c : AssetReconciliationCursor) (env : ReconEnv)
    (L : Option ℤ) (rr : List RunRequest) (nk : List AssetKey)
    (np : List (AssetKey × List String)) (c' : AssetReconciliationCursor)
    (h : c.with_updates env L rr nk np = .ok c') :
    (∀ k, k ∈ c.materialized_or_requested_root_asset_keys →
        k ∈ c'.materialized_or_requested_root_asset_keys)
    ∧ (∀ k, k ∈ nk → k ∈ c'.materialized_or_requested_root_asset_keys)
    ∧ (∀ rr' ∈ rr, ∀ k ∈ rr'.asset_selection, env.has_non_source_parents k = false →
        truthyStr rr'.partition_key = false →
        k ∈ c'.materialized_or_requested_root_asset_keys)
    ∧ (∀ k p,
        p ∈ (lookupKey c.materialized_or_requested_root_partitions_by_asset_key k).getD [] →
        p ∈ (lookupKey c'.materialized_or_requested_root_partitions_by_asset_key k).getD [])
    ∧ (∀ rr' ∈ rr, ∀ k ∈ rr'.asset_selection, env.has_non_source_parents k = false →
        ∀ p, rr'.partition_key = some p → p ≠ "" →
        p ∈ (lookupKey c'.materialized_or_requested_root_partitions_by_asset_key k).getD []) := by
  obtain ⟨hkeys, hparts⟩ := with_updates_ok_eq c env L rr nk np c' h
  refine ⟨?_, ?_, ?_, ?_, ?_⟩
  · intro k hk
    rw [hkeys]
    exact List.mem_append_left _ (List.mem_append_left _ hk)
  · intro k hk
    rw [hkeys]
    exact List.mem_append_left _ (List.mem_append_right _ hk)
  · intro rr' hrr' k hk hnsp htr
    rw [hkeys]
    exact List.mem_append_right _
      ((requestedFold_adds env rr rr' hrr' k hk hnsp).1 htr)
  · intro k p hp
    rw [hparts]
    by_cases hmem : k ∈ (np.map Prod.fst ++ (requestedFold env rr).1.map Prod.fst).dedup
    · rw [(lookupKey_updatedRootPartitions c np (requestedFold env rr).1 k).2 hmem]
      simp only [Option.getD_some]
      exact List.mem_append_left _ (List.mem_append_left _ hp)
    · rw [(lookupKey_updatedRootPartitions c np (requestedFold env rr).1 k).1 hmem]
      exact hp
  · intro rr' hrr' k hk hnsp p hp hpne
    rw [hparts]
    have hreq : p ∈ (lookupKey (requestedFold env rr).1 k).getD [] :=
      (requestedFold_adds env rr rr' hrr' k hk hnsp).2 p hp hpne
    obtain ⟨v, hv, hpv⟩ := mem_getD_elim _ p hreq
    have hmem : k ∈ (np.map Prod.fst ++ (requestedFold env rr).1.map Prod.fst).dedup := by
      rw [List.mem_dedup, List.mem_append]
      exact Or.inr (mem_map_fst_of_lookupKey _ k v hv)
    rw [(lookupKey_updatedRootPartitions c np (requestedFold env rr).1 k).2 hmem]
    simp only [Option.getD_some]
    exact List.mem_append_right _ hreq

/-! ### Root-detector characterization -/

theorem rootPartitionStep_never (env : ReconEnv) (k : AssetKey) (acc : RootAcc)
    (p : String) (u : AssetKeyPartitionKey) :
    u ∈ (rootPartitionStep env k acc p).never_materialized_or_requested
      ↔ u ∈ acc.never_materialized_or_requested
        ∨ (u = ⟨k, some p⟩ ∧ latestRecordAP env.store ⟨k, some p⟩ none = none) := by
  unfold rootPartitionStep
  cases hrec : (latestRecordAP env.store ⟨k, some p⟩ none).isSome with
  | true =>
    simp only [if_true]
    constructor
    · exact Or.inl
    · rintro (h | ⟨-, hnone⟩)
      · exact h
      · rw [hnone] at hrec
        exact Bool.noConfusion hrec
  | false =>
    simp only [Bool.false_eq_true, if_false]
    rw [mem_insertAP]
    constructor
    · rintro (h | rfl)
      · exact Or.inl h
      · exact Or.inr ⟨rfl, Option.not_isSome_iff_eq_none.mp (by rw [hrec]; simp)⟩
    · rintro (h | ⟨rfl, -⟩)
      · exact Or.inl h
      · exact Or.inr rfl

theorem foldl_rootPartitionStep_never (env : ReconEnv) (k : AssetKey) :
    ∀ (ps : List String) (acc : RootAcc) (u : AssetKeyPartitionKey),
      u ∈ (ps.foldl (rootPartitionStep env k) acc).never_materialized_or_requested
        ↔ u ∈ acc.never_materialized_or_requested
          ∨ ∃ p ∈ ps, u = ⟨k, some p⟩
            ∧ latestRecordAP env.store ⟨k, some p⟩ none = none := by
  intro ps
  induction ps with
  | nil => intro acc u; simp
  | cons p ps' ih =>
    intro acc u
    simp only [List.foldl]
    rw [ih, rootPartitionStep_never]
    constructor
    · rintro ((h | h) | ⟨p', hp', h⟩)
      · exact Or.inl h
      · exact Or.inr ⟨p, List.mem_cons_self p ps', h⟩
      · exact Or.inr ⟨p', List.mem_cons_of_mem p hp', h⟩
    · rintro (h | ⟨p', hp', h⟩)
      · exact Or.inl (Or.inl h)
      · rcases List.mem_cons.mp hp' with rfl | hmem
        · exact Or.inl (Or.inr h)
        · exact Or.inr ⟨p', hmem, h⟩

theorem mem_rootKeyStep_never (env : ReconEnv) (cursor : AssetReconciliationCursor)
    (acc : RootAcc) (k : AssetKey) (u : AssetKeyPartitionKey) :
    u ∈ (rootKeyStep env cursor acc k).never_materialized_or_requested
      ↔ u ∈ acc.never_materialized_or_requested ∨ rootCond env cursor k u := by
  unfold rootKeyStep
  cases hpart : env.is_partitioned k with
  | true =>
    simp only [if_true]
    rw [foldl_rootPartitionStep_never]
    unfold rootCond
    constructor
    · rintro (h | ⟨p, hp, rfl, hnone⟩)
      · exact Or.inl h
      · exact Or.inr ⟨rfl, hnone, Or.inl ⟨hpart, p, rfl, hp⟩⟩
    · rintro (h | ⟨hkey, hnone, (⟨-, p, hpk, hp⟩ | ⟨hfalse, -, -⟩)⟩)
      · exact Or.inl h
      · refine Or.inr ⟨p, hp, ?_, ?_⟩
        · cases u with
          | mk a b =>
            simp only at hkey hpk
            rw [hkey, hpk]
        · cases u with
          | mk a b =>
            simp only at hkey hpk
            rw [hkey, hpk] at hnone
            exact hnone
      · rw [hpart] at hfalse
        exact Bool.noConfusion hfalse
  | false =>
    simp only [Bool.false_eq_true, if_false]
    cases hprev : cursor.was_previously_materialized_or_requested k with
    | true =>
      simp only [Bool.not_true, Bool.false_eq_true, if_false]
      unfold rootCond
      constructor
      · exact Or.inl
      · rintro (h | ⟨-, -, (⟨htrue, -⟩ | ⟨-, -, hfalse⟩)⟩)
        · exact h
        · rw [hpart] at htrue
          exact Bool.noConfusion htrue
        · rw [hprev] at hfalse
          exact Bool.noConfusion hfalse
    | false =>
      simp only [Bool.not_false, if_true]
      cases hrec : (latestRecordAP env.store ⟨k, none⟩ none).isSome with
      | true =>
        simp only [if_true]
        unfold rootCond
        constructor
        · exact Or.inl
        · rintro (h | ⟨hkey, hnone, (⟨htrue, -⟩ | ⟨-, hpk, -⟩)⟩)
          · exact h
          · rw [hpart] at htrue
            exact Bool.noConfusion htrue
          · have hu : u = ⟨k, none⟩ := by
              cases u with
              | mk a b =>
                simp only at hkey hpk
                rw [hkey, hpk]
            rw [hu] at hnone
            rw [hnone] at hrec
            exact Bool.noConfusion hrec
      | false =>
        simp only [Bool.false_eq_true, if_false]
        rw [mem_insertAP]
        unfold rootCond
        constructor
        · rintro (h | rfl)
          · exact Or.inl h
          · exact Or.inr ⟨rfl, Option.not_isSome_iff_eq_none.mp (by rw [hrec]; simp),
              Or.inr ⟨hpart, rfl, hprev⟩⟩
        · rintro (h | ⟨hkey, -, (⟨htrue, -⟩ | ⟨-, hpk, -⟩)⟩)
          · exact Or.inl h
          · rw [hpart] at htrue
            exact Bool.noConfusion htrue
          · refine Or.inr ?_
            cases u with
            | mk a b =>
              simp only at hkey hpk
              rw [hkey, hpk]

theorem mem_find_never (env : ReconEnv) (cursor : AssetReconciliationCursor)
    (u : AssetKeyPartitionKey) :
    u ∈ (find_never_materialized_or_requested_root_asset_partitions env
        cursor).never_materialized_or_requested
      ↔ ∃ k ∈ env.target_root_asset_keys, rootCond env cursor k u := by
  have hgen : ∀ (ks : List AssetKey) (acc : RootAcc),
      u ∈ (ks.foldl (rootKeyStep env cursor) acc).never_materialized_or_requested
        ↔ u ∈ acc.never_materialized_or_requested
          ∨ ∃ k ∈ ks, rootCond env cursor k u := by
    intro ks
    induction ks with
    | nil => intro acc; simp
    | cons k ks' ih =>
      intro acc
      simp only [List.foldl]
      rw [ih, mem_rootKeyStep_never]
      constructor
      · rintro ((h | h) | ⟨k', hk', h⟩)
        · exact Or.inl h
        · exact Or.inr ⟨k, List.mem_cons_self k ks', h⟩
        · exact Or.inr ⟨k', List.mem_cons_of_mem k hk', h⟩
      · rintro (h | ⟨k', hk', h⟩)
        · exact Or.inl (Or.inl h)
        · rcases List.mem_cons.mp hk' with rfl | hmem
          · exact Or.inl (Or.inr h)
          · exact Or.inr ⟨k', hmem, h⟩
  unfold find_never_materialized_or_requested_root_asset_partitions
  rw [hgen]
  simp

/-- The digit-fold never shortens its accumulator. -/
theorem toDigitsCore_len_ge (b : ℕ) :
    ∀ (fuel n : ℕ) (ds : List Char), ds.length ≤ (Nat.toDigitsCore b fuel n ds).length := by
  intro fuel
  induction fuel with
  | zero => intro n ds; simp [Nat.toDigitsCore]
  | succ f ih =>
    intro n ds
    simp only [Nat.toDigitsCore]
    split
    · simp
    · exact le_trans (by simp) (ih (n / b) ((n % b).digitChar :: ds))

/-- The decimal representation of a natural number is nonempty. -/
theorem toString_nat_ne_empty (i : ℕ) : toString i ≠ "" := by
  intro heq
  have hdata : (Nat.toDigits 10 i).asString.data = "".data := by
    rw [show (Nat.toDigits 10 i).asString = toString i from rfl, heq]
  have hnil : Nat.toDigits 10 i = [] := hdata
  have hlen : 1 ≤ (Nat.toDigits 10 i).length := by
    unfold Nat.toDigits Nat.toDigitsCore
    show 1 ≤ (if i / 10 = 0 then [(i % 10).digitChar]
        else Nat.toDigitsCore 10 i (i / 10) [(i % 10).digitChar]).length
    by_cases hdiv : i / 10 = 0
    · rw [if_pos hdiv]
      simp
    · rw [if_neg hdiv]
      exact le_trans (by simp) (toDigitsCore_len_ge 10 i (i / 10) [(i % 10).digitChar])
  rw [hnil] at hlen
  exact absurd hlen (by simp)

/-- Keys generated for a time window are decimal indices, hence
nonempty. -/
theorem mem_window_keys_ne_empty (tw : TimeWindowPartitionsDef) (w : TimeWindow)
    (t : Time) (p : String) (h : p ∈ tw.get_partition_keys_in_time_window w t) :
    p ≠ "" := by
  unfold TimeWindowPartitionsDef.get_partition_keys_in_time_window at h
  rw [List.mem_filterMap] at h
  obtain ⟨i, -, hi⟩ := h
  split at hi
  · injection hi with hi'
    rw [← hi']
    exact toString_nat_ne_empty i
  · exact Option.noConfusion hi

/-- A never-requested never-materialized partition key is not in the
cursor's stored subset for its asset and is nonempty (given that static
partitions definitions have no empty key). -/
theorem get_never_partitions_props (env : ReconEnv) (c : AssetReconciliationCursor)
    (k : AssetKey) (p : String)
    (h : p ∈ c.get_never_requested_never_materialized_partitions env k)
    (hstatic : ∀ keys, env.get_partitions_def k = some (.static keys) → "" ∉ keys) :
    p ∉ (lookupKey c.materialized_or_requested_root_partitions_by_asset_key k).getD []
      ∧ p ≠ "" := by
  unfold AssetReconciliationCursor.get_never_requested_never_materialized_partitions at h
  cases hdef : env.get_partitions_def k with
  | none => rw [hdef] at h; exact absurd h (List.not_mem_nil p)
  | some pd =>
    rw [hdef] at h
    cases pd with
    | timeWindow tw =>
      cases hallow : allowable_time_window_for_partitions_def tw env.evaluation_time with
      | none =>
        simp only [hallow] at h
        exact absurd h (List.not_mem_nil p)
      | some w =>
        simp only [hallow] at h
        rw [List.mem_filter, decide_eq_true_eq] at h
        exact ⟨h.2, mem_window_keys_ne_empty tw w env.evaluation_time p h.1⟩
    | static keys =>
      simp only at h
      rw [List.mem_filter, decide_eq_true_eq] at h
      refine ⟨h.2, fun hp => ?_⟩
      rw [hp] at h
      exact hstatic keys hdef h.1

/-- Case equations for the never-requested partition enumeration. -/
theorem get_never_eq_cases (env : ReconEnv) (c : AssetReconciliationCursor) (k : AssetKey) :
    (env.get_partitions_def k = none →
      c.get_never_requested_never_materialized_partitions env k = [])
    ∧ (∀ tw, env.get_partitions_def k = some (.timeWindow tw) →
        c.get_never_requested_never_materialized_partitions env k
          = match allowable_time_window_for_partitions_def tw env.evaluation_time with
            | none => []
            | some w =>
              (tw.get_partition_keys_in_time_window w env.evaluation_time).filter
                fun p => decide (p ∉ (lookupKey
                  c.materialized_or_requested_root_partitions_by_asset_key k).getD []))
    ∧ (∀ keys, env.get_partitions_def k = some (.static keys) →
        c.get_never_requested_never_materialized_partitions env k
          = keys.filter fun p => decide (p ∉ (lookupKey
              c.materialized_or_requested_root_partitions_by_asset_key k).getD [])) := by
  refine ⟨?_, ?_, ?_⟩
  · intro h
    unfold AssetReconciliationCursor.get_never_requested_never_materialized_partitions
    rw [h]
  · intro tw h
    unfold AssetReconciliationCursor.get_never_requested_never_materialized_partitions
    rw [h]
  · intro keys h
    unfold AssetReconciliationCursor.get_never_requested_never_materialized_partitions
    rw [h]

/-- A partition that is never-requested for a larger cursor is
never-requested for a smaller one. -/
theorem get_never_partitions_antitone (env : ReconEnv)
    (c c' : AssetReconciliationCursor) (k : AssetKey)
    (hp : ∀ p, p ∈ (lookupKey c.materialized_or_requested_root_partitions_by_asset_key
          k).getD [] →
        p ∈ (lookupKey c'.materialized_or_requested_root_partitions_by_asset_key k).getD []) :
    ∀ p, p ∈ c'.get_never_requested_never_materialized_partitions env k →
      p ∈ c.get_never_requested_never_materialized_partitions env k := by
  intro p h
  cases hdef : env.get_partitions_def k with
  | none =>
    rw [(get_never_eq_cases env c' k).1 hdef] at h
    exact absurd h (List.not_mem_nil p)
  | some pd =>
    cases pd with
    | timeWindow tw =>
      rw [(get_never_eq_cases env c' k).2.1 tw hdef] at h
      rw [(get_never_eq_cases env c k).2.1 tw hdef]
      cases hallow : allowable_time_window_for_partitions_def tw env.evaluation_time with
      | none =>
        rw [hallow] at h
        exact absurd h (List.not_mem_nil p)
      | some w =>
        rw [hallow] at h
        rw [List.mem_filter, decide_eq_true_eq] at h ⊢
        exact ⟨h.1, fun hmem => h.2 (hp p hmem)⟩
    | static keys =>
      rw [(get_never_eq_cases env c' k).2.2 keys hdef] at h
      rw [(get_never_eq_cases env c k).2.2 keys hdef]
      rw [List.mem_filter, decide_eq_true_eq] at h ⊢
      exact ⟨h.1, fun hmem => h.2 (hp p hmem)⟩

/-- A root candidate for a larger cursor is a root candidate for a
smaller one. -/
theorem rootCond_antitone (env : ReconEnv) (c c' : AssetReconciliationCursor)
    (k : AssetKey) (u : AssetKeyPartitionKey)
    (hk : ∀ k', k' ∈ c.materialized_or_requested_root_asset_keys →
        k' ∈ c'.materialized_or_requested_root_asset_keys)
    (hp : ∀ k' p,
        p ∈ (lookupKey c.materialized_or_requested_root_partitions_by_asset_key k').getD [] →
        p ∈ (lookupKey c'.materialized_or_requested_root_partitions_by_asset_key k').getD [])
    (h : rootCond env c' k u) : rootCond env c k u := by
  obtain ⟨hkey, hnone, hcase⟩ := h
  refine ⟨hkey, hnone, ?_⟩
  rcases hcase with ⟨hpart, p, hpk, hmem⟩ | ⟨hpart, hpk, hprev⟩
  · exact Or.inl ⟨hpart, p, hpk,
      get_never_partitions_antitone env c c' k (hp k) p hmem⟩
  · refine Or.inr ⟨hpart, hpk, ?_⟩
    unfold AssetReconciliationCursor.was_previously_materialized_or_requested at hprev ⊢
    rw [decide_eq_false_iff_not] at hprev
    rw [decide_eq_false_iff_not]
    exact fun hmem => hprev (hk k hmem)

/-! ### Closure lemmas -/

/-- Accepted units persist in the closure's accumulator. -/
theorem bfs_acc_mem (groupOf childrenOf : AssetKeyPartitionKey → List AssetKeyPartitionKey)
    (condition : List AssetKeyPartitionKey → List AssetKeyPartitionKey → Bool) :
    ∀ fuel queue acc u, u ∈ acc →
      u ∈ bfsFilter groupOf childrenOf condition fuel queue acc := by
  intro fuel
  induction fuel with
  | zero => intro queue acc u h; simpa [bfsFilter] using h
  | succ n ih =>
    intro queue acc u h
    cases queue with
    | nil => simpa [bfsFilter] using h
    | cons v rest =>
      simp only [bfsFilter]
      split
      · exact ih _ _ u (List.mem_append_left _ h)
      · exact ih _ _ u h

/-- A queue whose every group is rejected adds nothing. -/
theorem bfs_all_rejected
    (groupOf childrenOf : AssetKeyPartitionKey → List AssetKeyPartitionKey)
    (condition : List AssetKeyPartitionKey → List AssetKeyPartitionKey → Bool) :
    ∀ fuel queue acc, (∀ v ∈ queue, condition (groupOf v) acc = false) →
      bfsFilter groupOf childrenOf condition fuel queue acc = acc := by
  intro fuel
  induction fuel with
  | zero => intro queue acc _; rfl
  | succ n ih =>
    intro queue acc h
    cases queue with
    | nil => rfl
    | cons v rest =>
      simp only [bfsFilter]
      rw [h v (List.mem_cons_self v rest)]
      simp only [Bool.false_eq_true, if_false]
      exact ih rest acc fun v' hv' => h v' (List.mem_cons_of_mem v hv')

theorem mem_take_append {α : Type} (v : α) :
    ∀ (l : List α) (n : ℕ) (l' : List α), v ∈ l.take n → v ∈ (l ++ l').take n := by
  intro l
  induction l with
  | nil => intro n l' h; simp at h
  | cons a as ih =>
    intro n l' h
    cases n with
    | zero => simp at h
    | succ m =>
      rw [List.take_succ_cons] at h
      rw [List.cons_append, List.take_succ_cons]
      rcases List.mem_cons.mp h with rfl | hmem
      · exact List.mem_cons_self v _
      · exact List.mem_cons_of_mem a (ih m l' hmem)

/-- Every unit among the first `fuel` entries of the queue is either
accepted into the result or its group is rejected at some accumulator. -/
theorem bfs_eval_or_rejected
    (groupOf childrenOf : AssetKeyPartitionKey → List AssetKeyPartitionKey)
    (condition : List AssetKeyPartitionKey → List AssetKeyPartitionKey → Bool) :
    ∀ fuel queue acc v, v ∈ queue.take fuel → v ∈ groupOf v →
      v ∈ bfsFilter groupOf childrenOf condition fuel queue acc
      ∨ ∃ a, condition (groupOf v) a = false := by
  intro fuel
  induction fuel with
  | zero => intro queue acc v h; simp at h
  | succ n ih =>
    intro queue acc v hv hg
    cases queue with
    | nil => simp at hv
    | cons w rest =>
      rw [List.take_succ_cons] at hv
      simp only [bfsFilter]
      rcases List.mem_cons.mp hv with rfl | hmem
      · cases hb : condition (groupOf v) acc with
        | false => exact Or.inr ⟨acc, hb⟩
        | true =>
          simp only [if_true]
          exact Or.inl (bfs_acc_mem groupOf childrenOf condition n _ _ v
            (List.mem_append_right _ hg))
      · cases hb : condition (groupOf w) acc with
        | false =>
          simp only [Bool.false_eq_true, if_false]
          exact ih rest acc v hmem hg
        | true =>
          simp only [if_true]
          exact ih _ _ v (mem_take_append v rest n _ hmem) hg

/-- `parents_will_be_reconciled` is monotone in the to-reconcile set. -/
theorem parents_will_mono (env : ReconEnv) (a a' : List AssetKeyPartitionKey)
    (c : AssetKeyPartitionKey) (hsub : ∀ u, u ∈ a → u ∈ a')
    (h : parents_will_be_reconciled env a c = true) :
    parents_will_be_reconciled env a' c = true := by
  unfold parents_will_be_reconciled at h ⊢
  rw [List.all_eq_true] at h ⊢
  intro p hp
  have hp' := h p hp
  rw [Bool.or_eq_true] at hp' ⊢
  rcases hp' with hl | hr
  · rw [Bool.and_eq_true, Bool.and_eq_true] at hl
    refine Or.inl ?_
    rw [Bool.and_eq_true, Bool.and_eq_true]
    exact ⟨⟨decide_eq_true (hsub p (of_decide_eq_true hl.1.1)), hl.1.2⟩, hl.2⟩
  · exact Or.inr hr

/-- `should_reconcile` is monotone in the to-reconcile set. -/
theorem should_reconcile_mono (env : ReconEnv)
    (ev bf g : List AssetKeyPartitionKey) (a a' : List AssetKeyPartitionKey)
    (hsub : ∀ u, u ∈ a → u ∈ a')
    (h : should_reconcile env ev bf g a = true) :
    should_reconcile env ev bf g a' = true := by
  unfold should_reconcile at h ⊢
  split at h
  · exact Bool.noConfusion h
  · next h1 =>
    rw [if_neg h1]
    split at h
    · exact Bool.noConfusion h
    · next h2 =>
      rw [if_neg h2]
      rw [Bool.and_eq_true] at h ⊢
      obtain ⟨hall, hany⟩ := h
      refine ⟨?_, hany⟩
      rw [List.all_eq_true] at hall ⊢
      exact fun c hc => parents_will_mono env a a' c hsub (hall c hc)

/-! ### Run-request batching lemmas -/

theorem upsertGroup_mem_self :
    ∀ (gs : List ((Option PartitionsDef × Option String) × List AssetKey))
      (key : Option PartitionsDef × Option String) (k : AssetKey),
      ∃ e ∈ upsertGroup gs key k, e.1 = key ∧ k ∈ e.2 := by
  intro gs
  induction gs with
  | nil => intro key k; exact ⟨(key, [k]), by simp [upsertGroup], rfl, by simp⟩
  | cons g gs' ih =>
    intro key k
    cases g with
    | mk key' ks =>
      unfold upsertGroup
      by_cases hkey : key' = key
      · rw [if_pos hkey]
        exact ⟨(key', ks ++ [k]), List.mem_cons_self _ _, hkey,
          List.mem_append_right _ (List.mem_singleton.mpr rfl)⟩
      · rw [if_neg hkey]
        obtain ⟨e, he, h1, h2⟩ := ih key k
        exact ⟨e, List.mem_cons_of_mem _ he, h1, h2⟩

theorem upsertGroup_mono :
    ∀ (gs : List ((Option PartitionsDef × Option String) × List AssetKey))
      (key : Option PartitionsDef × Option String) (k : AssetKey)
      (e : (Option PartitionsDef × Option String) × List AssetKey), e ∈ gs →
      ∃ e' ∈ upsertGroup gs key k, e'.1 = e.1 ∧ ∀ x ∈ e.2, x ∈ e'.2 := by
  intro gs
  induction gs with
  | nil => intro key k e he; exact absurd he (List.not_mem_nil e)
  | cons g gs' ih =>
    intro key k e he
    cases g with
    | mk key' ks =>
      unfold upsertGroup
      by_cases hkey : key' = key
      · rw [if_pos hkey]
        rcases List.mem_cons.mp he with rfl | hmem
        · exact ⟨(key', ks ++ [k]), List.mem_cons_self _ _, rfl,
            fun x hx => List.mem_append_left _ hx⟩
        · exact ⟨e, List.mem_cons_of_mem _ hmem, rfl, fun x hx => hx⟩
      · rw [if_neg hkey]
        rcases List.mem_cons.mp he with rfl | hmem
        · exact ⟨(key', ks), List.mem_cons_self _ _, rfl, fun x hx => hx⟩
        · obtain ⟨e', he', h1, h2⟩ := ih key k e hmem
          exact ⟨e', List.mem_cons_of_mem _ he', h1, h2⟩

/-- The grouping fold of `build_run_requests` keeps (a superset of)
every existing group. -/
theorem buildGroups_mono (env : ReconEnv) :
    ∀ (aps : List AssetKeyPartitionKey)
      (gs : List ((Option PartitionsDef × Option String) × List AssetKey))
      (e : (Option PartitionsDef × Option String) × List AssetKey), e ∈ gs →
      ∃ e' ∈ aps.foldl
          (fun gs ap =>
            upsertGroup gs (env.get_partitions_def ap.asset_key, ap.partition_key)
              ap.asset_key)
          gs, e'.1 = e.1 ∧ ∀ x ∈ e.2, x ∈ e'.2 := by
  intro aps
  induction aps with
  | nil => intro gs e he; exact ⟨e, he, rfl, fun x hx => hx⟩
  | cons ap aps' ih =>
    intro gs e he
    simp only [List.foldl]
    obtain ⟨e', he', h1, h2⟩ :=
      upsertGroup_mono gs (env.get_partitions_def ap.asset_key, ap.partition_key)
        ap.asset_key e he
    obtain ⟨e'', he'', h1', h2'⟩ := ih _ e' he'
    exact ⟨e'', he'', by rw [h1', h1], fun x hx => h2' x (h2 x hx)⟩

/-- Every unit ends up in the group of its partitions definition and
partition key. -/
theorem buildGroups_mem (env : ReconEnv) :
    ∀ (aps : List AssetKeyPartitionKey)
      (gs : List ((Option PartitionsDef × Option String) × List AssetKey))
      (u : AssetKeyPartitionKey), u ∈ aps →
      ∃ e ∈ aps.foldl
          (fun gs ap =>
            upsertGroup gs (env.get_partitions_def ap.asset_key, ap.partition_key)
              ap.asset_key)
          gs, e.1 = (env.get_partitions_def u.asset_key, u.partition_key)
        ∧ u.asset_key ∈ e.2 := by
  intro aps
  induction aps with
  | nil => intro gs u hu; exact absurd hu (List.not_mem_nil u)
  | cons ap aps' ih =>
    intro gs u hu
    simp only [List.foldl]
    rcases List.mem_cons.mp hu with rfl | hmem
    · obtain ⟨e, he, h1, h2⟩ :=
        upsertGroup_mem_self gs (env.get_partitions_def u.asset_key, u.partition_key)
          u.asset_key
      obtain ⟨e', he', h1', h2'⟩ := buildGroups_mono env aps' _ e he
      exact ⟨e', he', by rw [h1', h1], h2' _ h2⟩
    · exact ih _ u hmem

theorem exceptMapM_ok_mem {α β : Type} (f : α → Except String β) :
    ∀ (l : List α) (bs : List β), exceptMapM f l = .ok bs →
      ∀ a ∈ l, ∃ b ∈ bs, f a = .ok b := by
  intro l
  induction l with
  | nil => intro bs _ a ha; exact absurd ha (List.not_mem_nil a)
  | cons a0 l' ih =>
    intro bs hok a ha
    unfold exceptMapM at hok
    cases hf : f a0 with
    | error e => rw [hf] at hok; exact Except.noConfusion hok
    | ok b0 =>
      rw [hf] at hok
      cases hrest : exceptMapM f l' with
      | error e => rw [hrest] at hok; exact Except.noConfusion hok
      | ok bs' =>
        rw [hrest] at hok
        injection hok with hok'
        subst hok'
        rcases List.mem_cons.mp ha with rfl | hmem
        · exact ⟨b0, List.mem_cons_self b0 bs', hf⟩
        · obtain ⟨b, hb, hfb⟩ := ih bs' hrest a hmem
          exact ⟨b, List.mem_cons_of_mem b0 hb, hfb⟩

/-- Every decided unit appears in some emitted run request, under its
own partition key. -/
theorem build_run_requests_mem (env : ReconEnv) (aps : List AssetKeyPartitionKey)
    (reqs : List RunRequest) (hok : build_run_requests env aps = .ok reqs)
    (u : AssetKeyPartitionKey) (hu : u ∈ aps) :
    ∃ req ∈ reqs, u.asset_key ∈ req.asset_selection
      ∧ req.partition_key = u.partition_key := by
  unfold build_run_requests at hok
  obtain ⟨e, he, h1, h2⟩ := buildGroups_mem env aps [] u hu
  obtain ⟨req, hreq, hfe⟩ := exceptMapM_ok_mem _ _ reqs hok e he
  refine ⟨req, hreq, ?_⟩
  rw [h1] at hfe
  cases hpk : u.partition_key with
  | none =>
    rw [hpk] at hfe
    injection hfe with hfe'
    rw [← hfe']
    exact ⟨h2, rfl⟩
  | some pk =>
    rw [hpk] at hfe
    cases hpd : env.get_partitions_def u.asset_key with
    | none => rw [hpd] at hfe; exact Except.noConfusion hfe
    | some pd =>
      rw [hpd] at hfe
      injection hfe with hfe'
      rw [← hfe']
      exact ⟨h2, rfl⟩

theorem except_bind_ok {α β : Type} (a : α) (f : α → Except String β) :
    ((Except.ok a : Except String α) >>= f) = f a := rfl

theorem except_bind_error {α β : Type} (e : String) (f : α → Except String β) :
    ((Except.error e : Except String α) >>= f) = .error e := rfl

/-- Decomposition of a successful `reconcile` tick into its pieces: the
backfill subset resolves, the run requests are built from the freshness
selection merged into the closure's result, and the cursor update
succeeds on exactly those run requests. -/
theorem reconcile_ok_elim (env : ReconEnv) (c : AssetReconciliationCursor) (fuel : ℕ)
    (r : List RunRequest) (c' : AssetReconciliationCursor)
    (h : reconcile env c fuel = .ok (r, c')) :
    ∃ S, get_active_backfill_target_asset_graph_subset env = .ok S
      ∧ build_run_requests env
          ((determine_asset_partitions_to_reconcile_for_freshness env).1.foldl insertAP
            (bfsFilter env.groupOf env.children_of
              (should_reconcile env
                (determine_asset_partitions_to_reconcile_for_freshness env).2 S)
              fuel
              ((find_never_materialized_or_requested_root_asset_partitions env
                    c).never_materialized_or_requested
                ++ (find_parent_materialized_asset_partitions env c.latest_storage_id
                    (can_reconcile_fn env)).1)
              []))
          = .ok r
      ∧ c.with_updates env
          (find_parent_materialized_asset_partitions env c.latest_storage_id
            (can_reconcile_fn env)).2 r
          (find_never_materialized_or_requested_root_asset_partitions env
            c).newly_materialized_root_asset_keys
          (find_never_materialized_or_requested_root_asset_partitions env
            c).newly_materialized_root_partitions_by_asset_key
          = .ok c' := by
  unfold reconcile at h
  cases hS : get_active_backfill_target_asset_graph_subset env with
  | error e =>
    exfalso
    unfold determine_asset_partitions_to_reconcile at h
    rw [hS] at h
    simp only [except_bind_error] at h
    exact Except.noConfusion h
  | ok S =>
    rw [determine_eq env c (determine_asset_partitions_to_reconcile_for_freshness env).2
      fuel S hS] at h
    simp only [except_bind_ok] at h
    refine ⟨S, rfl, ?_⟩
    cases hbuild : build_run_requests env
        ((determine_asset_partitions_to_reconcile_for_freshness env).1.foldl insertAP
          (bfsFilter env.groupOf env.children_of
            (should_reconcile env
              (determine_asset_partitions_to_reconcile_for_freshness env).2 S)
            fuel
            ((find_never_materialized_or_requested_root_asset_partitions env
                  c).never_materialized_or_requested
              ++ (find_parent_materialized_asset_partitions env c.latest_storage_id
                  (can_reconcile_fn env)).1)
            [])) with
    | error e =>
      rw [hbuild] at h
      simp only [except_bind_error] at h
      exact Except.noConfusion h
    | ok rr =>
      rw [hbuild] at h
      simp only [except_bind_ok] at h
      cases hwu : c.with_updates env
          (find_parent_materialized_asset_partitions env c.latest_storage_id
            (can_reconcile_fn env)).2 rr
          (find_never_materialized_or_requested_root_asset_partitions env
            c).newly_materialized_root_asset_keys
          (find_never_materialized_or_requested_root_asset_partitions env
            c).newly_materialized_root_partitions_by_asset_key with
      | error e =>
        rw [hwu] at h
        simp only [except_bind_error] at h
        exact Except.noConfusion h
      | ok cc =>
        rw [hwu] at h
        simp only [except_bind_ok] at h
        injection h with h'
        rw [Prod.mk.injEq] at h'
        obtain ⟨hr, hc⟩ := h'
        subst hr
        subst hc
        exact ⟨rfl, hwu⟩

/-- C8, counterexample: with a stale freshness-policied asset and an
unchanged record store, the second `reconcile` tick — run with the
cursor produced by the first tick — re-issues the same non-empty run
request instead of returning no requests: the freshness scheduler never
consults the cursor. -/
theorem c8_counterexample :
    reconcile envC8 ⟨some 1, [], []⟩ 5
        = .ok ([⟨["a"], none, []⟩], ⟨some 1, ["a", "a"], []⟩)
    ∧ reconcile envC8 ⟨some 1, ["a", "a"], []⟩ 5
        = .ok ([⟨["a"], none, []⟩], ⟨some 1, ["a", "a", "a"], []⟩)
    ∧ ([(⟨["a"], none, []⟩ : RunRequest)] ≠ ([] : List RunRequest)) :=
  ⟨rfl, rfl, List.cons_ne_nil _ _⟩

/-- C8, amended: running `reconcile` a second time with the cursor
produced by the first run, against the same record store and
environment (no new materialization records), yields an empty
run-request set — provided the freshness scheduler's to-materialize set
is empty for this environment (the freshness pass ignores the cursor,
so freshness-driven requests repeat; see the counterexample).
Hypotheses: target roots have no non-source parents (the meaning of the
root selection), every unit belongs to its own execution group, storage
ids are positive (database sequence numbers), static partitions
definitions have no empty key, and the first tick's traversal has fuel
for all its seeds. -/
theorem c8_second_tick_empty (env : ReconEnv)
    (cursor0 c1 c2 : AssetReconciliationCursor) (fuel1 fuel2 : ℕ)
    (r1 r2 : List RunRequest)
    (hfresh : (determine_asset_partitions_to_reconcile_for_freshness env).1 = [])
    (hroots_nsp : ∀ k ∈ env.target_root_asset_keys,
        env.has_non_source_parents k = false)
    (hgroup : ∀ u : AssetKeyPartitionKey, u ∈ env.groupOf u)
    (hpos_store : ∀ r ∈ env.store, 0 < r.storage_id)
    (hpos_cursor : ∀ a, cursor0.latest_storage_id = some a → 0 < a)
    (hstatic : ∀ k keys, env.get_partitions_def k = some (.static keys) → "" ∉ keys)
    (hfuel : ((find_never_materialized_or_requested_root_asset_partitions env
            cursor0).never_materialized_or_requested
          ++ (find_parent_materialized_asset_partitions env cursor0.latest_storage_id
              (can_reconcile_fn env)).1).length ≤ fuel1)
    (h1 : reconcile env cursor0 fuel1 = .ok (r1, c1))
    (h2 : reconcile env c1 fuel2 = .ok (r2, c2)) :
    r2 = [] := by
  obtain ⟨S, hS, hbuild1, hwu1⟩ := reconcile_ok_elim env cursor0 fuel1 r1 c1 h1
  obtain ⟨S', hS', hbuild2, hwu2⟩ := reconcile_ok_elim env c1 fuel2 r2 c2 h2
  have hSS : S = S' := by
    rw [hS] at hS'
    injection hS' with h'
  subst hSS
  rw [hfresh, List.foldl_nil] at hbuild1 hbuild2
  have hc1L : c1.latest_storage_id
      = orId (find_parent_materialized_asset_partitions env cursor0.latest_storage_id
          (can_reconcile_fn env)).2 cursor0.latest_storage_id :=
    with_updates_ok_latest cursor0 env _ _ _ _ c1 hwu1
  have hstale2 := stale_second_tick_empty env (can_reconcile_fn env)
    (can_reconcile_fn env) cursor0.latest_storage_id hpos_store hpos_cursor
  rw [hc1L, hstale2] at hbuild2
  obtain ⟨hkmono, hnewk, hreqk, hpmono, hreqp⟩ :=
    with_updates_ok_content cursor0 env _ r1 _ _ c1 hwu1
  have hrej : ∀ v ∈ (find_never_materialized_or_requested_root_asset_partitions env
        c1).never_materialized_or_requested,
      should_reconcile env
          (determine_asset_partitions_to_reconcile_for_freshness env).2 S
          (env.groupOf v) [] = false := by
    intro v hv
    rw [mem_find_never] at hv
    obtain ⟨k, hk, hcond1⟩ := hv
    have hcond0 : rootCond env cursor0 k v :=
      rootCond_antitone env cursor0 c1 k v hkmono hpmono hcond1
    have hv0 : v ∈ (find_never_materialized_or_requested_root_asset_partitions env
        cursor0).never_materialized_or_requested :=
      (mem_find_never env cursor0 v).mpr ⟨k, hk, hcond0⟩
    have hvseeds : v ∈ (find_never_materialized_or_requested_root_asset_partitions env
          cursor0).never_materialized_or_requested
        ++ (find_parent_materialized_asset_partitions env cursor0.latest_storage_id
            (can_reconcile_fn env)).1 :=
      List.mem_append_left _ hv0
    rcases bfs_eval_or_rejected env.groupOf env.children_of
        (should_reconcile env
          (determine_asset_partitions_to_reconcile_for_freshness env).2 S)
        fuel1 _ [] v (by rw [List.take_of_length_le hfuel]; exact hvseeds)
        (hgroup v) with hin | ⟨a, hrej1⟩
    · exfalso
      obtain ⟨req, hreq, hselm, hreqpk⟩ :=
        build_run_requests_mem env _ r1 hbuild1 v hin
      have hnsp : env.has_non_source_parents v.asset_key = false := by
        rw [hcond0.1]
        exact hroots_nsp k hk
      obtain ⟨hkey1, -, hcase1⟩ := hcond1
      rcases hcase1 with ⟨-, p, hpk, hmem⟩ | ⟨-, hpk, hprev⟩
      · have hprops := get_never_partitions_props env c1 k p hmem
          (fun keys hdef => hstatic k keys hdef)
        have hpin : p ∈ (lookupKey
            c1.materialized_or_requested_root_partitions_by_asset_key
            v.asset_key).getD [] :=
          hreqp req hreq v.asset_key hselm hnsp p (by rw [hreqpk, hpk]) hprops.2
        rw [hkey1] at hpin
        exact absurd hpin hprops.1
      · have hkin : v.asset_key ∈ c1.materialized_or_requested_root_asset_keys :=
          hreqk req hreq v.asset_key hselm hnsp (by rw [hreqpk, hpk]; rfl)
        rw [hkey1] at hkin
        unfold AssetReconciliationCursor.was_previously_materialized_or_requested at hprev
        rw [decide_eq_false_iff_not] at hprev
        exact hprev hkin
    · cases hbp : should_reconcile env
          (determine_asset_partitions_to_reconcile_for_freshness env).2 S
          (env.groupOf v) [] with
      | false => rfl
      | true =>
        exfalso
        have := should_reconcile_mono env
          (determine_asset_partitions_to_reconcile_for_freshness env).2 S
          (env.groupOf v) [] a (fun u hu => absurd hu (List.not_mem_nil u)) hbp
        rw [this] at hrej1
        exact Bool.noConfusion hrej1
  rw [show (([], orId (find_parent_materialized_asset_partitions env
        cursor0.latest_storage_id (can_reconcile_fn env)).2
        cursor0.latest_storage_id).1 : List AssetKeyPartitionKey) = [] from rfl,
      List.append_nil,
      bfs_all_rejected env.groupOf env.children_of _ fuel2 _ [] hrej] at hbuild2
  have : build_run_requests env [] = .ok ([] : List RunRequest) := rfl
  rw [this] at hbuild2
  injection hbuild2 with h'
  exact h'.symm

/-- Witness for `c8_second_tick_empty`: against the environment with one
never-materialized root and no freshness policies, the first tick
requests the root and the second tick, fed the first tick's cursor,
requests nothing. -/
theorem c8_amended_witness :
    reconcile envC8w .empty 5
        = .ok ([⟨["a"], none, []⟩], ⟨none, ["a"], []⟩)
    ∧ reconcile envC8w ⟨none, ["a"], []⟩ 5 = .ok ([], ⟨none, ["a"], []⟩)
    ∧ ([] : List RunRequest) = [] := by
  refine ⟨rfl, rfl, ?_⟩
  exact c8_second_tick_empty envC8w .empty ⟨none, ["a"], []⟩ ⟨none, ["a"], []⟩ 5 5
    [⟨["a"], none, []⟩] [] rfl (by decide)
    (fun u => by show u ∈ [u]; exact List.mem_singleton_self u)
    (by decide) (fun a h => Option.noConfusion h)
    (fun k keys h => Option.noConfusion h) (by decide) rfl rfl

end AssetRecon
